import Mathlib

/-!
Shallow embedding of the zkauction deterministic auction engine
(src/lib of the zkzoomer/zkauction repository) together with its lean
incremental Merkle tree crate (src/lean_imt), and proofs settling the
frozen claims C1..C10 about the natural-language specification.

Modelling conventions, fixed once for the whole file:

* All machine integers are modelled as Nat. U256 values are Nats together
  with explicit reductions mod 2^256 exactly where the Rust release build
  wraps (alloy U256 `+=`, `-=`, `overflowing_mul`), explicit saturation
  where the code calls `saturating_add`, and explicit overflow flags where
  the code calls `overflowing_mul`. usize values are Nats; the two sites
  where the code can decrement a usize holding 0 (`i -= 1` in
  `increase_cum_sum_bids` and the partial-assignment loop of
  `ValidatedBids::assign`) wrap to 2^64-1 in a release build and the very
  next slice index with that value is out of bounds, so both sites are
  modelled as a panic; every slice index is modelled with `List.get?`
  so that any out-of-bounds access is a panic as well. A panicking
  computation returns `none`; `some` is a normal return.
* The caller-supplied byte-oriented hash primitive is abstracted by
  functions on the values it is ever applied to: the price-commitment hash
  `hash(price_be ++ nonce_be)` becomes an abstract `h : Nat → Nat → Nat`,
  and the Merkle node hash `keccak256(left ++ right)` over two 32-byte
  digests becomes an abstract `H : Nat → Nat → Nat`. Digests, addresses
  and order ids are opaque Nats.
* `calculate_repurchase_price` goes through binary floating point in the
  source; none of the claims treated here depends on the value it
  produces, so the assignment code is parameterised by an arbitrary
  function `rp : Nat → Nat → Nat → Nat` standing for it.
* BTreeMap books are modelled extensionally as functions from keys to
  `Option` entries (the claims about them are pointwise); the allocation
  BTreeMaps, whose claims involve sums over all entries, are modelled as
  association lists with unique keys.
* `Result<T, String>` of the Merkle proof generator is modelled as
  `Option T`, `none` standing for the error return.
* `(size as f64).log2().ceil() as usize` in `insert_many` is modelled as
  `Nat.clog 2 size`, which agrees with the floating-point computation for
  every size a vector of 32-byte nodes can physically have.
-/

/-! ### Constants (src/lib/src/constants.rs) -/

def BPS : Nat := 10000

def MAX_BID_PRICE : Nat := 1000000

def MAX_OFFER_PRICE : Nat := 1000000

def INITIAL_COLLATERAL_RATIO_BPS : Nat := 15000

def DAYS_IN_YEAR : Nat := 360

/-! ### U256 arithmetic helpers -/

/-- Modulus of U256 arithmetic, 2^256. -/
def U256MOD : Nat := 2 ^ 256

/-- Largest U256 value, 2^256 - 1. -/
def U256MAX : Nat := 2 ^ 256 - 1

/-- Wrapping U256 addition (alloy release-mode `+=`). -/
def uadd (a b : Nat) : Nat := (a + b) % U256MOD

/-- Wrapping U256 subtraction (alloy release-mode `-=`), for a b < 2^256. -/
def usub (a b : Nat) : Nat := (U256MOD + a - b) % U256MOD

/-- Rust `U256::saturating_add`. -/
def satAdd (a b : Nat) : Nat := min (a + b) U256MAX

/-- Rust `U256::overflowing_mul`: wrapped product and overflow flag. -/
def omul (a b : Nat) : Nat × Bool := (a * b % U256MOD, decide (U256MOD ≤ a * b))

/-! ### Orders (src/lib/src/orders/bids.rs, src/lib/src/types/offers.rs) -/

/-- A bid book entry (struct `Bid`). Digests, addresses and ids are opaque Nats. -/
structure Bid where
  id : Nat
  bidder : Nat
  bid_price_hash : Nat
  bid_price_revealed : Nat
  amount : Nat
  collateral_amount : Nat
  is_rollover : Bool
  rollover_pair_off_term_repo_servicer : Nat
  is_revealed : Bool
  deriving Repr, DecidableEq

/-- An offer book entry (struct `Offer`). -/
structure Offer where
  id : Nat
  offeror : Nat
  offer_price_hash : Nat
  offer_price_revealed : Nat
  amount : Nat
  purchase_token : Nat
  is_revealed : Bool
  deriving Repr, DecidableEq

/-- Auction parameters as used by `Bid::is_valid` (struct `AuctionParameters`,
fields `purchasePrice` and `collateralPrice`; token addresses are irrelevant
to every claim treated here and are omitted). -/
structure AuctionParameters where
  purchasePrice : Nat
  collateralPrice : Nat
  deriving Repr, DecidableEq

namespace Bid

/-- Rust `Bid::is_valid` (src/lib/src/orders/bids.rs lines 75-89): four
`overflowing_mul` steps, then
`is_revealed && collateral_side >= minimum_collateral_side && no overflow`. -/
def is_valid (b : Bid) (tokens : AuctionParameters) : Bool :=
  let cv := omul b.collateral_amount tokens.collateralPrice
  let pv := omul b.amount tokens.purchasePrice
  let mcs := omul pv.1 INITIAL_COLLATERAL_RATIO_BPS
  let cs := omul cv.1 BPS
  b.is_revealed && decide (mcs.1 ≤ cs.1) && (!cv.2 && !pv.2 && !mcs.2 && !cs.2)

end Bid

/-! ### Order submissions, reveals and the books
(src/lib/src/orders/bids.rs, src/lib/src/types/offers.rs,
src/lib/src/types/utils.rs) -/

/-- Sol struct `BidSubmission`. -/
structure BidSubmission where
  bidder : Nat
  id : Nat
  bidPriceHash : Nat
  amount : Nat
  collateralAmount : Nat
  deriving Repr, DecidableEq

/-- Sol struct `OfferSubmission`. -/
structure OfferSubmission where
  offeror : Nat
  id : Nat
  offerPriceHash : Nat
  amount : Nat
  purchaseToken : Nat
  deriving Repr, DecidableEq

/-- Sol struct `BidReveal` (`OfferReveal` has the same shape). `orderId` is
the 32-byte order key. -/
structure OrderReveal where
  orderId : Nat
  price : Nat
  nonce : Nat
  deriving Repr, DecidableEq

/-- Rust `get_key(address, id)`: the 32-byte key `address(20 bytes) ++ id(12 bytes)`,
read as a big-endian number. -/
def get_key (address : Nat) (id : Nat) : Nat := address * 2 ^ 96 + id

/-- Rust `get_price_hash(hash_function, price, nonce)`: the caller-supplied hash
applied to the 64-byte concatenation of the two big-endian words, abstracted
as a two-argument function of the price and the nonce. -/
def get_price_hash (h : Nat → Nat → Nat) (price nonce : Nat) : Nat := h price nonce

/-- The bid book `Bids = BTreeMap<B256, Bid>`, modelled extensionally. -/
def Bids : Type := Nat → Option Bid

/-- The offer book `Offers = BTreeMap<B256, Offer>`, modelled extensionally. -/
def Offers : Type := Nat → Option Offer

namespace Bid

/-- Rust `Bid::from_order_submission`. -/
def from_order_submission (s : BidSubmission) : Bid :=
  { id := s.id
    bidder := s.bidder
    bid_price_hash := s.bidPriceHash
    bid_price_revealed := 0
    amount := s.amount
    collateral_amount := s.collateralAmount
    is_rollover := false
    rollover_pair_off_term_repo_servicer := 0
    is_revealed := false }

/-- Rust `Bid::update_from_order_submission`. -/
def update_from_order_submission (b : Bid) (s : BidSubmission) : Bid :=
  { b with
    amount := s.amount
    collateral_amount := s.collateralAmount
    bid_price_hash := s.bidPriceHash }

/-- Rust `Bid::update_from_order_reveal`: mutate only when the recomputed price
commitment matches and the price is within `MAX_BID_PRICE`. -/
def update_from_order_reveal (h : Nat → Nat → Nat) (b : Bid) (r : OrderReveal) : Bid :=
  if get_price_hash h r.price r.nonce = b.bid_price_hash ∧ r.price ≤ MAX_BID_PRICE then
    { b with bid_price_revealed := r.price, is_revealed := true }
  else b

end Bid

namespace Offer

/-- Rust `Offer::from_order_submission`. -/
def from_order_submission (s : OfferSubmission) : Offer :=
  { id := s.id
    offeror := s.offeror
    offer_price_hash := s.offerPriceHash
    offer_price_revealed := 0
    amount := s.amount
    purchase_token := s.purchaseToken
    is_revealed := false }

/-- Rust `Offer::update_from_order_submission`. -/
def update_from_order_submission (o : Offer) (s : OfferSubmission) : Offer :=
  { o with amount := s.amount, offer_price_hash := s.offerPriceHash }

/-- Rust `Offer::update_from_order_reveal`. -/
def update_from_order_reveal (h : Nat → Nat → Nat) (o : Offer) (r : OrderReveal) : Offer :=
  if get_price_hash h r.price r.nonce = o.offer_price_hash ∧ r.price ≤ MAX_OFFER_PRICE then
    { o with offer_price_revealed := r.price, is_revealed := true }
  else o

end Offer

namespace Bids

/-- Rust `Bids::save_or_update_order` (src/lib/src/orders/bids.rs lines 121-133):
zero collateral removes the key, an existing key is updated from the
submission, an absent key gets a fresh entry. -/
def save_or_update_order (book : Bids) (s : BidSubmission) : Bids :=
  let key := get_key s.bidder s.id
  if s.collateralAmount = 0 then
    fun k => if k = key then none else book k
  else
    fun k =>
      if k = key then
        match book key with
        | some b => some (b.update_from_order_submission s)
        | none => some (Bid.from_order_submission s)
      else book k

/-- The book mutation performed for one reveal inside
`BidReveals::hash_chain` (src/lib/src/orders/bids.rs lines 216-224):
`get_mut` on the key, then `update_from_order_reveal`; an unknown key is
left alone. -/
def apply_order_reveal (h : Nat → Nat → Nat) (book : Bids) (r : OrderReveal) : Bids :=
  fun k =>
    if k = r.orderId then
      match book r.orderId with
      | some b => some (b.update_from_order_reveal h r)
      | none => none
    else book k

end Bids

namespace Offers

/-- Rust `Offers::save_or_update_order` (zero `amount` removes the key). -/
def save_or_update_order (book : Offers) (s : OfferSubmission) : Offers :=
  let key := get_key s.offeror s.id
  if s.amount = 0 then
    fun k => if k = key then none else book k
  else
    fun k =>
      if k = key then
        match book key with
        | some o => some (o.update_from_order_submission s)
        | none => some (Offer.from_order_submission s)
      else book k

/-- The book mutation performed for one reveal inside `OfferReveals::hash_chain`. -/
def apply_order_reveal (h : Nat → Nat → Nat) (book : Offers) (r : OrderReveal) : Offers :=
  fun k =>
    if k = r.orderId then
      match book r.orderId with
      | some o => some (o.update_from_order_reveal h r)
      | none => none
    else book k

end Offers

/-! ### Allocations (src/lib/src/allocations/bidder_allocations.rs,
src/lib/src/allocations/offeror_allocations.rs) -/

/-- Struct `RepurchaseObligation`. -/
structure RepurchaseObligation where
  repurchase_amount : Nat
  collateral_amount : Nat
  deriving Repr, DecidableEq

/-- Struct `BidderAllocation`. -/
structure BidderAllocation where
  purchase_amount : Nat
  collateral_amount : Nat
  repurchase_obligation : RepurchaseObligation
  deriving Repr, DecidableEq

/-- Struct `OfferorAllocation`. -/
structure OfferorAllocation where
  repo_amount : Nat
  purchase_amount : Nat
  deriving Repr, DecidableEq

/-- Rust `BidderAllocation::default()`. -/
def BidderAllocation.default : BidderAllocation :=
  { purchase_amount := 0
    collateral_amount := 0
    repurchase_obligation := { repurchase_amount := 0, collateral_amount := 0 } }

/-- Rust `OfferorAllocation::default()`. -/
def OfferorAllocation.default : OfferorAllocation :=
  { repo_amount := 0, purchase_amount := 0 }

namespace BidderAllocation

/-- Rust `BidderAllocation::update_purchase_amount` (saturating). -/
def update_purchase_amount (a : BidderAllocation) (amount : Nat) : BidderAllocation :=
  { a with purchase_amount := satAdd a.purchase_amount amount }

/-- Rust `BidderAllocation::update_collateral_amount` (saturating). -/
def update_collateral_amount (a : BidderAllocation) (amount : Nat) : BidderAllocation :=
  { a with collateral_amount := satAdd a.collateral_amount amount }

/-- Rust `BidderAllocation::update_repurchase_obligation` (both fields saturating). -/
def update_repurchase_obligation (a : BidderAllocation)
    (repurchase_amount collateral_amount : Nat) : BidderAllocation :=
  { a with
    repurchase_obligation :=
      { repurchase_amount := satAdd a.repurchase_obligation.repurchase_amount repurchase_amount
        collateral_amount := satAdd a.repurchase_obligation.collateral_amount collateral_amount } }

end BidderAllocation

namespace OfferorAllocation

/-- Rust `OfferorAllocation::update_repo_amount` (saturating). -/
def update_repo_amount (a : OfferorAllocation) (amount : Nat) : OfferorAllocation :=
  { a with repo_amount := satAdd a.repo_amount amount }

/-- Rust `OfferorAllocation::update_purchase_amount` (saturating). -/
def update_purchase_amount (a : OfferorAllocation) (amount : Nat) : OfferorAllocation :=
  { a with purchase_amount := satAdd a.purchase_amount amount }

end OfferorAllocation

/-- The allocation maps `BTreeMap<Address, _>`, modelled as association lists
with unique keys (only sums over all entries and single-key updates are
needed, so the key order of the BTreeMap is irrelevant here). -/
def AllocMap (A : Type) : Type := List (Nat × A)

/-- Rust `allocations.entry(address).or_default()` followed by a mutation `f` of
the entry: update the entry in place when the address is present, otherwise
insert `f default`. -/
def AllocMap.getThen {A : Type} (m : AllocMap A) (address : Nat) (dflt : A) (f : A → A) :
    AllocMap A :=
  match m with
  | [] => [(address, f dflt)]
  | (a, v) :: rest =>
    if a = address then (a, f v) :: rest
    else (a, v) :: AllocMap.getThen rest address dflt f

/-- The value stored for an address, if any. -/
def AllocMap.lookup {A : Type} (m : AllocMap A) (address : Nat) : Option A :=
  match m with
  | [] => none
  | (a, v) :: rest => if a = address then some v else AllocMap.lookup rest address

def BidderAllocations : Type := AllocMap BidderAllocation

def OfferorAllocations : Type := AllocMap OfferorAllocation

/-- Rust `BidderAllocations::add_from_order`: credit the bid collateral back to
the bidder (used for invalid orders and for unlocking). -/
def BidderAllocations.add_from_order (m : BidderAllocations) (b : Bid) : BidderAllocations :=
  AllocMap.getThen m b.bidder BidderAllocation.default
    (fun a => a.update_collateral_amount b.collateral_amount)

/-- Rust `OfferorAllocations::add_from_order`: credit the offer amount back to
the offeror. -/
def OfferorAllocations.add_from_order (m : OfferorAllocations) (o : Offer) :
    OfferorAllocations :=
  AllocMap.getThen m o.offeror OfferorAllocation.default
    (fun a => a.update_purchase_amount o.amount)

/-- Rust `ValidatedOrders::unlock_outstanding_orders` for validated bids:
fold `add_from_order` over the list. -/
def unlock_outstanding_bids (orders : List Bid) (m : BidderAllocations) : BidderAllocations :=
  orders.foldl BidderAllocations.add_from_order m

/-- Rust `ValidatedOrders::unlock_outstanding_orders` for validated offers. -/
def unlock_outstanding_offers (orders : List Offer) (m : OfferorAllocations) :
    OfferorAllocations :=
  orders.foldl OfferorAllocations.add_from_order m

/-- Sum of `purchase_amount` over all offeror allocations. -/
def OfferorAllocations.sumPurchase (m : OfferorAllocations) : Nat :=
  (m.map (fun e => e.2.purchase_amount)).sum

/-- Sum of `collateral_amount` over all bidder allocations. -/
def BidderAllocations.sumCollateral (m : BidderAllocations) : Nat :=
  (m.map (fun e => e.2.collateral_amount)).sum

/-! ### Clearing-price discovery (src/lib/src/auction/mod.rs)

Validated books are plain lists (`ValidatedBids = Vec<Bid>`,
`ValidatedOffers = Vec<Offer>`). Every Rust `while` loop of
`compute_clearing_price` becomes one recursive function below; `none`
marks exactly the executions in which the Rust release build panics
(usize underflow followed by an out-of-bounds index, or a direct
out-of-bounds index). -/

/-- The final expression of `increase_cum_sum_bids`:
`if bids[i].price < price { i + 1 } else { i }`. -/
def increaseFinal (bids : List Bid) (price : Nat) (i cum : Nat) : Option (Nat × Nat) :=
  match bids.get? i with
  | none => none
  | some b => some (cum, if b.bid_price_revealed < price then i + 1 else i)

/-- The loop of `increase_cum_sum_bids` (src/lib/src/auction/mod.rs lines
207-213): walk downward from `i` while `bids[i].price >= price`, adding
amounts; `i -= 1` on `i = 0` is the usize underflow panic. -/
def increaseLoop (bids : List Bid) (price : Nat) (i cum : Nat) : Option (Nat × Nat) :=
  match bids.get? i with
  | none => none
  | some b =>
    if price ≤ b.bid_price_revealed then
      let cum := uadd cum b.amount
      if i = 0 then none
      else if i - 1 = 0 then increaseFinal bids price 0 cum
      else increaseLoop bids price (i - 1) cum
    else increaseFinal bids price i cum
  termination_by i

/-- Rust `increase_cum_sum_bids(bids, start_index, prev_cum_sum_bids, current_price)`. -/
def increase_cum_sum_bids (bids : List Bid) (start_index prev_cum_sum_bids price : Nat) :
    Option (Nat × Nat) :=
  increaseLoop bids price start_index prev_cum_sum_bids

/-- Rust `decrease_cum_sum_bids` (src/lib/src/auction/mod.rs lines 225-240): walk
upward while `i < bids.len() && bids[i].price < price`, subtracting amounts. -/
def decrease_cum_sum_bids (bids : List Bid) (start_index prev_cum_sum_bids price : Nat) :
    Nat × Nat :=
  match h : bids.get? start_index with
  | none => (prev_cum_sum_bids, start_index)
  | some b =>
    if b.bid_price_revealed < price then
      decrease_cum_sum_bids bids (start_index + 1) (usub prev_cum_sum_bids b.amount) price
    else (prev_cum_sum_bids, start_index)
  termination_by bids.length - start_index
  decreasing_by
    have hlt : start_index < bids.length := by
      cases Nat.lt_or_ge start_index bids.length with
      | inl hl => exact hl
      | inr hr => rw [List.get?_eq_none.mpr hr] at h; cases h
    omega

/-- The inner offer-group loop of phase A (src/lib/src/auction/mod.rs lines
56-61): extend the cumulative offer sum over the price group at `price`.
Returns the new cumulative sum and the number of offers consumed, so the
final value of `next_offer_index` is the start index plus the count. -/
def offerGroupLoop (offers : List Offer) (price : Nat) (idx cso : Nat) : Nat × Nat :=
  match h : offers.get? idx with
  | none => (cso, 0)
  | some o =>
    if o.offer_price_revealed = price then
      let r := offerGroupLoop offers price (idx + 1) (uadd cso o.amount)
      (r.1, r.2 + 1)
    else (cso, 0)
  termination_by offers.length - idx
  decreasing_by
    have hlt : idx < offers.length := by
      cases Nat.lt_or_ge idx offers.length with
      | inl hl => exact hl
      | inr hr => rw [List.get?_eq_none.mpr hr] at h; cases h
    omega

/-- The inner bid-group loop of phase B (src/lib/src/auction/mod.rs lines
95-100): remove the bid price group at `price` from the cumulative bid
sum. Returns the new cumulative sum and the number of bids consumed. -/
def bidGroupLoop (bids : List Bid) (price : Nat) (idx csb : Nat) : Nat × Nat :=
  match h : bids.get? idx with
  | none => (csb, 0)
  | some b =>
    if b.bid_price_revealed = price then
      let r := bidGroupLoop bids price (idx + 1) (usub csb b.amount)
      (r.1, r.2 + 1)
    else (csb, 0)
  termination_by bids.length - idx
  decreasing_by
    have hlt : idx < bids.length := by
      cases Nat.lt_or_ge idx bids.length with
      | inl hl => exact hl
      | inr hr => rw [List.get?_eq_none.mpr hr] at h; cases h
    omega

/-- The mutable locals of `compute_clearing_price` threaded through its
phases. -/
structure CPvars where
  offer_index : Nat
  bid_index : Nat
  cum_sum_offers : Nat
  cum_sum_bids : Nat
  deriving Repr, DecidableEq

/-- Phase A of `compute_clearing_price` (src/lib/src/auction/mod.rs lines
47-79): advance offer price groups while the clearing volume strictly
improves. `maxv` is `max_clearing_volume`. The inner offer-group walk is
started one past `offer_index` with its amount already added, which is
exactly what the first iteration of the inner Rust loop does. -/
def phaseA (bids : List Bid) (offers : List Offer) (s : CPvars) (maxv : Nat) : CPvars :=
  if hg : s.offer_index < offers.length ∧ s.bid_index < bids.length then
    match offers.get? s.offer_index with
    | none => s
    | some o =>
      let p := o.offer_price_revealed
      let grp := offerGroupLoop offers p (s.offer_index + 1) (uadd s.cum_sum_offers o.amount)
      let dec := decrease_cum_sum_bids bids s.bid_index s.cum_sum_bids p
      let nmax := min dec.1 grp.1
      if maxv < nmax then
        phaseA bids offers
          { offer_index := s.offer_index + 1 + grp.2
            bid_index := dec.2
            cum_sum_offers := grp.1
            cum_sum_bids := dec.1 } nmax
      else s
  else s
  termination_by offers.length - s.offer_index
  decreasing_by
    omega

/-- Phase B of `compute_clearing_price` (src/lib/src/auction/mod.rs lines
89-112): drop low bid price groups while the bid price stays below
`next_offer_price` and the shrunken cumulative bid sum stays below the
cumulative offer sum. Returns `(cum_sum_bids, bid_index)`. -/
def phaseB (bids : List Bid) (next_offer_price cso : Nat) (bi csb : Nat) : Nat × Nat :=
  match h : bids.get? bi with
  | none => (csb, bi)
  | some b =>
    if b.bid_price_revealed < next_offer_price then
      let grp := bidGroupLoop bids b.bid_price_revealed (bi + 1) (usub csb b.amount)
      if grp.1 < cso then phaseB bids next_offer_price cso (bi + 1 + grp.2) grp.1
      else (csb, bi)
    else (csb, bi)
  termination_by bids.length - bi
  decreasing_by
    have h2 : bi < bids.length := by
      cases Nat.lt_or_ge bi bids.length with
      | inl hl => exact hl
      | inr hr => rw [List.get?_eq_none.mpr hr] at h; cases h
    omega

/-- The `next_offer_price_index` loop of the clearing computation
(src/lib/src/auction/mod.rs lines 133-139): walk downward while the price
still equals the target price. -/
def noiLoop (offers : List Offer) (price : Nat) (noi : Nat) : Option Nat :=
  if noi = 0 then some 0
  else
    match offers.get? noi with
    | none => none
    | some o =>
      if o.offer_price_revealed = price then noiLoop offers price (noi - 1)
      else some noi
  termination_by noi

/-- The `next_bid_price_index` loop (src/lib/src/auction/mod.rs lines
148-152): walk upward while below the last index and the price still
equals the target price. -/
def nbpiLoop (bids : List Bid) (price : Nat) (nbpi : Nat) : Option Nat :=
  if nbpi < bids.length - 1 then
    match bids.get? nbpi with
    | none => none
    | some b =>
      if b.bid_price_revealed = price then nbpiLoop bids price (nbpi + 1)
      else some nbpi
  else some nbpi
  termination_by bids.length - 1 - nbpi

/-- The upward `cum_sum_offers` update loop (src/lib/src/auction/mod.rs
lines 170-175). -/
def csoUp (offers : List Offer) (clearing : Nat) (idx cso : Nat) : Nat :=
  match h : offers.get? idx with
  | none => cso
  | some o =>
    if o.offer_price_revealed ≤ clearing then
      csoUp offers clearing (idx + 1) (uadd cso o.amount)
    else cso
  termination_by offers.length - idx
  decreasing_by
    have hlt : idx < offers.length := by
      cases Nat.lt_or_ge idx offers.length with
      | inl hl => exact hl
      | inr hr => rw [List.get?_eq_none.mpr hr] at h; cases h
    omega

/-- The downward `cum_sum_offers` update loop (src/lib/src/auction/mod.rs
lines 177-184), with its `break` on index 0. -/
def csoDown (offers : List Offer) (clearing : Nat) (idx cso : Nat) : Option Nat :=
  match offers.get? idx with
  | none => none
  | some o =>
    if clearing < o.offer_price_revealed then
      let cso := usub cso o.amount
      if idx = 0 then some cso
      else csoDown offers clearing (idx - 1) cso
    else some cso
  termination_by idx

/-- Rust `compute_clearing_price(bids, offers)` (src/lib/src/auction/mod.rs lines
25-195), for the hardcoded `clearing_offset == 1` branch the source always
takes. Returns `some (clearing_price, max_assignable)`, or `none` when the
Rust release build panics (unwrap of an empty offers vector, usize
underflow into an out-of-bounds index, or a direct out-of-bounds index). -/
def compute_clearing_price (bids : List Bid) (offers : List Offer) : Option (Nat × Nat) :=
  match offers.getLast? with
  | none => none
  | some lastOffer =>
    let offer_price := lastOffer.offer_price_revealed
    if bids.length = 0 then none
    else
      match increase_cum_sum_bids bids (bids.length - 1) 0 offer_price with
      | none => none
      | some (csb1, bi1) =>
        let maxv := min csb1 lastOffer.amount
        let sA := phaseA bids offers
          { offer_index := 1
            bid_index := bi1
            cum_sum_offers := lastOffer.amount
            cum_sum_bids := csb1 } maxv
        let next_offer_price :=
          match offers.get? sA.offer_index with
          | some o => o.offer_price_revealed
          | none => U256MAX
        let pB := phaseB bids next_offer_price sA.cum_sum_offers sA.bid_index sA.cum_sum_bids
        let csb2 := pB.1
        let bid_index := pB.2
        if sA.offer_index = 0 then none
        else
          let oi := sA.offer_index - 1
          match offers.get? oi with
          | none => none
          | some oAtOi =>
            match noiLoop offers oAtOi.offer_price_revealed oi with
            | none => none
            | some noi =>
              match offers.get? noi with
              | none => none
              | some oN =>
                let nbpi0 := if bid_index = bids.length then bid_index - 1 else bid_index
                let bTarget :=
                  match bids.get? bid_index with
                  | some b => b.bid_price_revealed
                  | none => 0
                match nbpiLoop bids bTarget nbpi0 with
                | none => none
                | some nbpi =>
                  match bids.get? nbpi with
                  | none => none
                  | some bN =>
                    let clearing :=
                      uadd oN.offer_price_revealed bN.bid_price_revealed / 2
                    let csoFinal :=
                      if oAtOi.offer_price_revealed ≤ clearing then
                        some (csoUp offers clearing (oi + 1) sA.cum_sum_offers)
                      else csoDown offers clearing oi sA.cum_sum_offers
                    match csoFinal with
                    | none => none
                    | some cso2 =>
                      let hiBid :=
                        match bids.get? bid_index with
                        | some b => decide (b.bid_price_revealed < clearing)
                        | none => false
                      if hiBid then
                        some (clearing,
                          min (decrease_cum_sum_bids bids bid_index csb2 clearing).1 cso2)
                      else if 0 < bid_index then
                        match increase_cum_sum_bids bids (bid_index - 1) csb2 clearing with
                        | none => none
                        | some (csb3, _) => some (clearing, min csb3 cso2)
                      else some (clearing, min csb2 cso2)

/-! ### Assignment (src/lib/src/auction/mod.rs lines 316-355,
src/lib/src/auction/assign_bids.rs)

`calculate_repurchase_price` converts through binary floating point in the
source; the assignment code below is parameterised by an arbitrary
`rp : purchase → clearing → day_count → Nat` standing for it, because no
claim settled here depends on the value it returns. -/

/-- The loop of `find_first_index_for_price`: walk downward while the
previous bid still has the target price, accumulating amounts. -/
def ffLoop (bids : List Bid) (price : Nat) (i total : Nat) : Option (Nat × Nat) :=
  if i = 0 then some (0, total)
  else
    match bids.get? (i - 1) with
    | none => none
    | some b =>
      if b.bid_price_revealed ≠ price then some (i, total)
      else ffLoop bids price (i - 1) (uadd total b.amount)
  termination_by i

/-- Rust `find_first_index_for_price(price, bids, start_index)`
(src/lib/src/auction/mod.rs lines 316-334). -/
def find_first_index_for_price (price : Nat) (bids : List Bid) (start_index : Nat) :
    Option (Nat × Nat) :=
  match bids.get? start_index with
  | none => none
  | some b0 => ffLoop bids price start_index b0.amount

/-- The loop of `find_last_index_for_price`: the source breaks on
`i < offers.len() - 1 || offers[i + 1].price != price`, so whenever
`i = offers.len() - 1` the short-circuit falls through to the index
`offers[i + 1]`, which is out of bounds. -/
def flLoop (offers : List Offer) (price : Nat) (i total : Nat) : Option (Nat × Nat) :=
  if i < offers.length - 1 then some (i, total)
  else
    match h : offers.get? (i + 1) with
    | none => none
    | some o =>
      if o.offer_price_revealed ≠ price then some (i, total)
      else flLoop offers price (i + 1) (uadd total o.amount)
  termination_by offers.length - i
  decreasing_by
    have hlt : i + 1 < offers.length := by
      cases Nat.lt_or_ge (i + 1) offers.length with
      | inl hl => exact hl
      | inr hr => rw [List.get?_eq_none.mpr hr] at h; cases h
    omega

/-- Rust `find_last_index_for_price(price, offers, start_index)`
(src/lib/src/auction/mod.rs lines 337-355). -/
def find_last_index_for_price (price : Nat) (offers : List Offer) (start_index : Nat) :
    Option (Nat × Nat) :=
  match offers.get? start_index with
  | none => none
  | some o0 => flLoop offers price start_index o0.amount

namespace Bid

/-- Rust `Bid::fully_assign` (src/lib/src/auction/assign_bids.rs lines 18-33):
credit the full bid amount and a repurchase obligation for the whole
collateral; returns the assigned amount. -/
def fully_assign (rp : Nat → Nat → Nat → Nat) (b : Bid) (clearing_price day_count : Nat)
    (allocs : BidderAllocations) : Nat × BidderAllocations :=
  let repurchase_amount := rp b.amount clearing_price day_count
  (b.amount,
    AllocMap.getThen allocs b.bidder BidderAllocation.default fun a =>
      (a.update_purchase_amount b.amount).update_repurchase_obligation
        repurchase_amount b.collateral_amount)

/-- Rust `Bid::partially_assign` (src/lib/src/auction/assign_bids.rs lines
35-51). -/
def partially_assign (rp : Nat → Nat → Nat → Nat) (b : Bid)
    (clearing_price day_count assigned_amount : Nat)
    (allocs : BidderAllocations) : Nat × BidderAllocations :=
  let repurchase_amount := rp assigned_amount clearing_price day_count
  (assigned_amount,
    AllocMap.getThen allocs b.bidder BidderAllocation.default fun a =>
      (a.update_purchase_amount assigned_amount).update_repurchase_obligation
        repurchase_amount b.collateral_amount)

/-- Rust `Bid::unlock`: `add_from_order`. -/
def unlock (b : Bid) (allocs : BidderAllocations) : BidderAllocations :=
  allocs.add_from_order b

end Bid

/-- The FULL ASSIGNMENT inner loop of `ValidatedBids::assign`
(src/lib/src/auction/assign_bids.rs lines 87-98): the guard
`i - inner_index >= k` is usize arithmetic, so once `inner_index`
exceeds `i` the subtraction wraps, the guard holds, and the body indexes
out of bounds (modelled: `none`); the `i == inner_index` break keeps that
from happening here. Returns `(inner_index, total, allocs)`. -/
def fullLoop (rp : Nat → Nat → Nat → Nat) (bids : List Bid)
    (k i clearing_price day_count : Nat)
    (inner total : Nat) (allocs : BidderAllocations) :
    Option (Nat × Nat × BidderAllocations) :=
  if i < inner then none
  else if k ≤ i - inner then
    match bids.get? (i - inner) with
    | none => none
    | some b =>
      let fa := b.fully_assign rp clearing_price day_count allocs
      let total := uadd total fa.1
      if i = inner then some (inner, total, fa.2)
      else fullLoop rp bids k i clearing_price day_count (inner + 1) total fa.2
  else some (inner, total, allocs)
  termination_by i - inner

/-- The PARTIAL ASSIGNMENT inner loop of `ValidatedBids::assign`
(src/lib/src/auction/assign_bids.rs lines 110-136). There is no
`i == inner_index` break here: after the group head at index `k = 0` is
processed, `inner_index` exceeds `i`, `i - inner_index` wraps, and the
body indexes out of bounds (modelled: `none`). A zero
`price_group_amount` divisor is the division-by-zero panic. -/
def partLoop (rp : Nat → Nat → Nat → Nat) (bids : List Bid)
    (k i clearing_price day_count max_assignable : Nat)
    (inner total pga : Nat) (allocs : BidderAllocations) :
    Option (Nat × Nat × BidderAllocations) :=
  if i < inner then none
  else if k ≤ i - inner then
    match bids.get? (i - inner) with
    | none => none
    | some b =>
      if i - inner = k then
        let pa := b.partially_assign rp clearing_price day_count
          (usub max_assignable total) allocs
        let total := uadd total pa.1
        let pga := usub pga (usub max_assignable total)
        partLoop rp bids k i clearing_price day_count max_assignable
          (inner + 1) total pga pa.2
      else
        if pga = 0 then none
        else
          let assigned_amount := b.amount * usub max_assignable total % U256MOD / pga
          let pa := b.partially_assign rp clearing_price day_count assigned_amount allocs
          let total := uadd total pa.1
          let pga := usub pga b.amount
          partLoop rp bids k i clearing_price day_count max_assignable
            (inner + 1) total pga pa.2
  else some (inner, total, allocs)
  termination_by (i + 1) - inner

/-- The outer loop of `ValidatedBids::assign`
(src/lib/src/auction/assign_bids.rs lines 74-147), walking `j` from
`bids.len()` down to zero over price groups. -/
def assignBidsLoop (rp : Nat → Nat → Nat → Nat) (bids : List Bid)
    (max_assignable clearing_price day_count : Nat)
    (j total : Nat) (allocs : BidderAllocations) : Option BidderAllocations :=
  if _hj : j = 0 then some allocs
  else
    let i := j - 1
    match bids.get? i with
    | none => none
    | some bi =>
      match find_first_index_for_price bi.bid_price_revealed bids i with
      | none => none
      | some (k, pga) =>
        if clearing_price ≤ bi.bid_price_revealed ∧ total < max_assignable ∧
            pga ≤ usub max_assignable total then
          match fullLoop rp bids k i clearing_price day_count 0 total allocs with
          | none => none
          | some (inner, total2, allocs2) =>
            let j2 := if 0 < inner then j - (inner - 1) else j
            assignBidsLoop rp bids max_assignable clearing_price day_count
              (j2 - 1) total2 allocs2
        else if clearing_price ≤ bi.bid_price_revealed ∧ total < max_assignable then
          match partLoop rp bids k i clearing_price day_count max_assignable
              0 total pga allocs with
          | none => none
          | some (inner, total2, allocs2) =>
            let j2 := if 0 < inner then j - (inner - 1) else j
            assignBidsLoop rp bids max_assignable clearing_price day_count
              (j2 - 1) total2 allocs2
        else
          assignBidsLoop rp bids max_assignable clearing_price day_count
            (j - 1) total (bi.unlock allocs)
  termination_by j
  decreasing_by
    · split <;> omega
    · split <;> omega
    · omega

/-- Rust `ValidatedBids::assign(max_assignable, clearing_price, day_count,
allocations)` (src/lib/src/auction/assign_bids.rs lines 58-148). -/
def ValidatedBids.assign (rp : Nat → Nat → Nat → Nat) (bids : List Bid)
    (max_assignable clearing_price day_count : Nat)
    (allocs : BidderAllocations) : Option BidderAllocations :=
  assignBidsLoop rp bids max_assignable clearing_price day_count bids.length 0 allocs

/-! ### Lean incremental Merkle tree (src/lean_imt/src/lib.rs)

Digests are opaque Nats and `keccak256([left, right].concat())` is an
abstract `H : Nat → Nat → Nat`. A tree is its `nodes` field: the list of
levels, leaves first. `LeanIncrementalMerkleTree::new(leaves)` calls
`insert_many` on the empty tree, which extends the level list to
`ceil(log2 size)` new levels (`Nat.clog 2 size` here; the source computes
it through f64, which agrees for every physically possible size) and then
fills each level `l + 1` from level `l` by hashing index pairs
`(2i, 2i + 1)` and promoting a lone trailing node unchanged - that is,
each level is `pairUp` of the level below. -/

/-- One Merkle level built from the level below: hash adjacent pairs,
promote a lone trailing node (the `match right_node` in `insert_many`). -/
def pairUp (H : Nat → Nat → Nat) : List Nat → List Nat
  | [] => []
  | [x] => [x]
  | x :: y :: rest => H x y :: pairUp H rest

/-- The levels of the tree: `d` levels above the leaf level, each the
`pairUp` of the one below. -/
def iterLevels (H : Nat → Nat → Nat) : Nat → List Nat → List (List Nat)
  | 0, l => [l]
  | n + 1, l => l :: iterLevels H n (pairUp H l)

/-- The `nodes` of `LeanIncrementalMerkleTree::new(leaves)`. -/
def newTree (H : Nat → Nat → Nat) (leaves : List Nat) : List (List Nat) :=
  iterLevels H (Nat.clog 2 leaves.length) leaves

/-- Rust `LeanIncrementalMerkleTree::size`. -/
def treeSize (t : List (List Nat)) : Nat := (t.headD []).length

/-- Rust `LeanIncrementalMerkleTree::depth` (`nodes.len() - 1`). -/
def treeDepth (t : List (List Nat)) : Nat := t.length - 1

/-- Rust `LeanIncrementalMerkleTree::root`: first node of the top level, or the
zero digest for an empty tree. -/
def treeRoot (t : List (List Nat)) : Nat := (t.getLastD []).headD 0

/-- Struct `LeanIMTMerkleProof`. -/
structure LeanIMTMerkleProof where
  root : Nat
  leaf : Nat
  index : Nat
  siblings : List Nat
  deriving Repr, DecidableEq

/-- The sibling-collection loop of `generate_proof` (src/lean_imt/src/lib.rs
lines 169-183): for each level below the root, record the sibling and the
direction bit when the sibling exists, and silently skip promoted lone
nodes. The levels argument is `nodes` without its top level. -/
def collectPath : List (List Nat) → Nat → List (Bool × Nat)
  | [], _ => []
  | level :: rest, idx =>
    match level.get? (if idx % 2 == 1 then idx - 1 else idx + 1) with
    | some s => (idx % 2 == 1, s) :: collectPath rest (idx / 2)
    | none => collectPath rest (idx / 2)

/-- Rust `path.reverse()` then `fold (acc << 1) | bit`: the i-th pushed direction
bit becomes bit i of the packed proof index. -/
def packIndex : List (Bool × Nat) → Nat
  | [] => 0
  | (b, _) :: rest => (if b then 1 else 0) + 2 * packIndex rest

/-- Rust `LeanIncrementalMerkleTree::generate_proof(index)` (src/lean_imt/src/lib.rs
lines 156-194); `Err(String)` is modelled as `none`. -/
def generate_proof (t : List (List Nat)) (index : Nat) : Option LeanIMTMerkleProof :=
  if treeSize t ≤ index then none
  else
    match (t.headD []).get? index with
    | none => none
    | some leaf =>
      let path := collectPath t.dropLast index
      some
        { root := treeRoot t
          leaf := leaf
          index := packIndex path
          siblings := path.map Prod.snd }

/-- The verification fold of `verify_proof` (src/lean_imt/src/lib.rs lines
212-218): hash the running node with each sibling on the side selected by
bit `i` of the proof index. -/
def verifyFold (H : Nat → Nat → Nat) (index : Nat) : List Nat → Nat → Nat → Nat
  | [], _, node => node
  | s :: rest, i, node =>
    verifyFold H index rest (i + 1) (if index / 2 ^ i % 2 = 1 then H s node else H node s)

/-- Rust `LeanIncrementalMerkleTree::verify_proof(proof)` (src/lean_imt/src/lib.rs
lines 209-221). The method takes `&self` but never reads it; the unused
tree argument is kept to mirror the receiver. -/
def verify_proof (H : Nat → Nat → Nat) (_t : List (List Nat))
    (proof : LeanIMTMerkleProof) : Bool :=
  proof.root = verifyFold H proof.index proof.siblings 0 proof.leaf

/-! ### Auxiliary definitions used by the claim theorems and witnesses -/

/-- Well-formedness of a bidder allocation: every field is a U256 value. -/
def BidderAllocation.wf (a : BidderAllocation) : Prop :=
  a.purchase_amount ≤ U256MAX ∧ a.collateral_amount ≤ U256MAX ∧
    a.repurchase_obligation.repurchase_amount ≤ U256MAX ∧
    a.repurchase_obligation.collateral_amount ≤ U256MAX

/-- Well-formedness of an offeror allocation: every field is a U256 value. -/
def OfferorAllocation.wf (a : OfferorAllocation) : Prop :=
  a.repo_amount ≤ U256MAX ∧ a.purchase_amount ≤ U256MAX

/-- Sum over an allocation map of an arbitrary numeric field. -/
def AllocMap.sumG {A : Type} (g : A → Nat) (m : AllocMap A) : Nat :=
  (m.map (fun e => g e.2)).sum

/-- An offer of the largest possible U256 amount, used to exhibit
saturation of the unlock credits. -/
def hugeOffer (i : Nat) : Offer :=
  { id := i, offeror := 1, offer_price_hash := 0, offer_price_revealed := 5,
    amount := U256MAX, purchase_token := 0, is_revealed := true }

/-- The single revealed bid of spec scenario S4 (price 1000, amount 100,
collateral 150). -/
def s4Bid : Bid :=
  { id := 0, bidder := 1, bid_price_hash := 0, bid_price_revealed := 1000, amount := 100,
    collateral_amount := 150, is_rollover := false, rollover_pair_off_term_repo_servicer := 0,
    is_revealed := true }

/-- The single revealed offer of spec scenario S4 (price 1000, amount 100). -/
def s4Offer : Offer :=
  { id := 0, offeror := 2, offer_price_hash := 0, offer_price_revealed := 1000, amount := 100,
    purchase_token := 0, is_revealed := true }

/-- The first bid (by book iteration order) of spec scenario S5: price
1000, amount 60. -/
def s5Bid60 : Bid :=
  { id := 0, bidder := 1, bid_price_hash := 0, bid_price_revealed := 1000, amount := 60,
    collateral_amount := 600, is_rollover := false, rollover_pair_off_term_repo_servicer := 0,
    is_revealed := true }

/-- The second bid (by book iteration order) of spec scenario S5: price
1000, amount 40. -/
def s5Bid40 : Bid :=
  { id := 1, bidder := 2, bid_price_hash := 0, bid_price_revealed := 1000, amount := 40,
    collateral_amount := 400, is_rollover := false, rollover_pair_off_term_repo_servicer := 0,
    is_revealed := true }

/-- Replay of a collected path: hash the running node with each recorded
sibling on the recorded side. -/
def applyPath (H : Nat → Nat → Nat) : List (Bool × Nat) → Nat → Nat
  | [], node => node
  | (true, s) :: rest, node => applyPath H rest (H s node)
  | (false, s) :: rest, node => applyPath H rest (H node s)

/-- The validated bid book sorted by ascending revealed price
(`ValidatedBids::sort_orders`). -/
def sortedBids (bids : List Bid) : Prop :=
  List.Pairwise (fun a b => a.bid_price_revealed ≤ b.bid_price_revealed) bids

/-- The validated offer book sorted by ascending revealed price
(`ValidatedOffers::sort_orders`). -/
def sortedOffers (offers : List Offer) : Prop :=
  List.Pairwise (fun a b => a.offer_price_revealed ≤ b.offer_price_revealed) offers

/-- A concrete sorted two-bid book for the C3 witness. -/
def wBidLo : Bid :=
  { id := 0, bidder := 1, bid_price_hash := 0, bid_price_revealed := 10, amount := 5,
    collateral_amount := 50, is_rollover := false, rollover_pair_off_term_repo_servicer := 0,
    is_revealed := true }

/-- A concrete sorted two-bid book for the C3 witness. -/
def wBidHi : Bid :=
  { id := 1, bidder := 2, bid_price_hash := 0, bid_price_revealed := 2000, amount := 100,
    collateral_amount := 300, is_rollover := false, rollover_pair_off_term_repo_servicer := 0,
    is_revealed := true }

/-- A concrete sorted two-offer book for the C3 witness. -/
def wOffer1 : Offer :=
  { id := 0, offeror := 3, offer_price_hash := 0, offer_price_revealed := 1000, amount := 100,
    purchase_token := 0, is_revealed := true }

/-- A concrete sorted two-offer book for the C3 witness. -/
def wOffer2 : Offer :=
  { id := 1, offeror := 4, offer_price_hash := 0, offer_price_revealed := 1500, amount := 50,
    purchase_token := 0, is_revealed := true }

/-! ### Claim theorems -/

/-- Claim C4: `Bid::is_valid` returns true iff the bid is revealed, the
collateralization inequality
`collateral_amount * collateral_price * BPS >= amount * purchase_price *
INITIAL_COLLATERAL_RATIO` holds (the 256-bit computation agrees with the
exact one because of the next conjunct), and none of the four
multiplications overflows 256 bits; any overflow makes the bid invalid. -/
theorem bid_is_valid_iff (b : Bid) (t : AuctionParameters) :
    b.is_valid t = true ↔
      b.is_revealed = true ∧
      (b.collateral_amount * t.collateralPrice < U256MOD ∧
        b.amount * t.purchasePrice < U256MOD ∧
        b.amount * t.purchasePrice * INITIAL_COLLATERAL_RATIO_BPS < U256MOD ∧
        b.collateral_amount * t.collateralPrice * BPS < U256MOD) ∧
      b.amount * t.purchasePrice * INITIAL_COLLATERAL_RATIO_BPS ≤
        b.collateral_amount * t.collateralPrice * BPS := by
  unfold Bid.is_valid omul
  simp only [Bool.and_eq_true, decide_eq_true_eq, Bool.not_eq_true',
    decide_eq_false_iff_not, not_le]
  constructor
  · rintro ⟨⟨hrev, hle⟩, ⟨⟨h1, h2⟩, h3⟩, h4⟩
    rw [Nat.mod_eq_of_lt h2] at h3
    rw [Nat.mod_eq_of_lt h1] at h4
    rw [Nat.mod_eq_of_lt h2, Nat.mod_eq_of_lt h3, Nat.mod_eq_of_lt h1,
      Nat.mod_eq_of_lt h4] at hle
    exact ⟨hrev, ⟨h1, h2, h3, h4⟩, hle⟩
  · rintro ⟨hrev, ⟨h1, h2, h3, h4⟩, hle⟩
    refine ⟨⟨hrev, ?_⟩, ⟨⟨h1, h2⟩, ?_⟩, ?_⟩
    · rw [Nat.mod_eq_of_lt h2, Nat.mod_eq_of_lt h3, Nat.mod_eq_of_lt h1,
        Nat.mod_eq_of_lt h4]
      exact hle
    · rw [Nat.mod_eq_of_lt h2]; exact h3
    · rw [Nat.mod_eq_of_lt h1]; exact h4

/-- Effect of `entry(addr).or_default()` plus a mutation `f` on lookups:
the entry at `addr` becomes `f` of the old entry (or of the default), and
every other key is untouched. -/
theorem AllocMap.lookup_getThen {A : Type} (m : AllocMap A) (addr : Nat) (dflt : A)
    (f : A → A) (k : Nat) :
    AllocMap.lookup (AllocMap.getThen m addr dflt f) k =
      if k = addr then some (f ((AllocMap.lookup m addr).getD dflt))
      else AllocMap.lookup m k := by
  induction m with
  | nil =>
    unfold AllocMap.getThen AllocMap.lookup
    by_cases hk : k = addr
    · subst hk
      rw [if_pos rfl, if_pos rfl]
      rfl
    · rw [if_neg (fun h => hk h.symm), if_neg hk]
      rfl
  | cons hd tl ih =>
    obtain ⟨a, v⟩ := hd
    unfold AllocMap.getThen
    by_cases ha : a = addr
    · subst ha
      rw [if_pos rfl]
      unfold AllocMap.lookup
      by_cases hk : a = k
      · subst hk
        rw [if_pos rfl, if_pos rfl, if_pos rfl]
        rfl
      · rw [if_neg hk, if_neg hk, if_neg (fun h => hk h.symm)]
    · rw [if_neg ha]
      unfold AllocMap.lookup
      by_cases hk : a = k
      · subst hk
        rw [if_pos rfl, if_pos rfl, if_neg ha]
      · rw [if_neg hk, if_neg hk, ih]
        by_cases hka : k = addr
        · rw [if_pos hka, if_pos hka, if_neg ha]
        · rw [if_neg hka, if_neg hka]

/-- Saturating addition never decreases a U256 value. -/
theorem satAdd_ge (a d : Nat) (h : a ≤ U256MAX) : a ≤ satAdd a d := by
  unfold satAdd
  omega

/-- Claim C9: every allocation update (`update_purchase_amount`,
`update_collateral_amount`, `update_repurchase_obligation`,
`update_repo_amount`, and the two `add_from_order` credits) leaves every
numeric field of every allocation greater than or equal to its previous
value, for all argument values, including those whose addition would
exceed 2^256 - 1 (the additions saturate instead of overflowing). -/
theorem allocation_updates_monotone (a : BidderAllocation) (o : OfferorAllocation)
    (m : BidderAllocations) (mo : OfferorAllocations)
    (x y : Nat) (b : Bid) (off : Offer)
    (ha : a.wf) (ho : o.wf) :
    (a.purchase_amount ≤ (a.update_purchase_amount x).purchase_amount ∧
      a.collateral_amount ≤ (a.update_purchase_amount x).collateral_amount ∧
      a.repurchase_obligation.repurchase_amount ≤
        (a.update_purchase_amount x).repurchase_obligation.repurchase_amount ∧
      a.repurchase_obligation.collateral_amount ≤
        (a.update_purchase_amount x).repurchase_obligation.collateral_amount) ∧
    (a.purchase_amount ≤ (a.update_collateral_amount x).purchase_amount ∧
      a.collateral_amount ≤ (a.update_collateral_amount x).collateral_amount ∧
      a.repurchase_obligation.repurchase_amount ≤
        (a.update_collateral_amount x).repurchase_obligation.repurchase_amount ∧
      a.repurchase_obligation.collateral_amount ≤
        (a.update_collateral_amount x).repurchase_obligation.collateral_amount) ∧
    (a.purchase_amount ≤ (a.update_repurchase_obligation x y).purchase_amount ∧
      a.collateral_amount ≤ (a.update_repurchase_obligation x y).collateral_amount ∧
      a.repurchase_obligation.repurchase_amount ≤
        (a.update_repurchase_obligation x y).repurchase_obligation.repurchase_amount ∧
      a.repurchase_obligation.collateral_amount ≤
        (a.update_repurchase_obligation x y).repurchase_obligation.collateral_amount) ∧
    (o.repo_amount ≤ (o.update_repo_amount x).repo_amount ∧
      o.purchase_amount ≤ (o.update_repo_amount x).purchase_amount) ∧
    (o.repo_amount ≤ (o.update_purchase_amount x).repo_amount ∧
      o.purchase_amount ≤ (o.update_purchase_amount x).purchase_amount) ∧
    (∀ k v, AllocMap.lookup m k = some v → v.wf →
      ∃ w, AllocMap.lookup (BidderAllocations.add_from_order m b) k = some w ∧
        v.purchase_amount ≤ w.purchase_amount ∧
        v.collateral_amount ≤ w.collateral_amount ∧
        v.repurchase_obligation.repurchase_amount ≤
          w.repurchase_obligation.repurchase_amount ∧
        v.repurchase_obligation.collateral_amount ≤
          w.repurchase_obligation.collateral_amount) ∧
    (∀ k v, AllocMap.lookup mo k = some v → v.wf →
      ∃ w, AllocMap.lookup (OfferorAllocations.add_from_order mo off) k = some w ∧
        v.repo_amount ≤ w.repo_amount ∧
        v.purchase_amount ≤ w.purchase_amount) := by
  obtain ⟨h1, h2, h3, h4⟩ := ha
  obtain ⟨h5, h6⟩ := ho
  refine ⟨?_, ?_, ?_, ?_, ?_, ?_, ?_⟩
  · unfold BidderAllocation.update_purchase_amount satAdd
    simp only []
    omega
  · unfold BidderAllocation.update_collateral_amount satAdd
    simp only []
    omega
  · unfold BidderAllocation.update_repurchase_obligation satAdd
    simp only []
    omega
  · unfold OfferorAllocation.update_repo_amount satAdd
    simp only []
    omega
  · unfold OfferorAllocation.update_purchase_amount satAdd
    simp only []
    omega
  · intro k v hv hwf
    unfold BidderAllocations.add_from_order
    rw [AllocMap.lookup_getThen]
    by_cases hk : k = b.bidder
    · rw [if_pos hk, ← hk, hv]
      obtain ⟨w1, w2, w3, w4⟩ := hwf
      refine ⟨_, rfl, ?_, ?_, ?_, ?_⟩ <;>
        · unfold BidderAllocation.update_collateral_amount satAdd
          simp only [Option.getD_some]
          omega
    · rw [if_neg hk]
      exact ⟨v, hv, Nat.le_refl _, Nat.le_refl _, Nat.le_refl _, Nat.le_refl _⟩
  · intro k v hv hwf
    unfold OfferorAllocations.add_from_order
    rw [AllocMap.lookup_getThen]
    by_cases hk : k = off.offeror
    · rw [if_pos hk, ← hk, hv]
      obtain ⟨w1, w2⟩ := hwf
      refine ⟨_, rfl, ?_, ?_⟩ <;>
        · unfold OfferorAllocation.update_purchase_amount satAdd
          simp only [Option.getD_some]
          omega
    · rw [if_neg hk]
      exact ⟨v, hv, Nat.le_refl _, Nat.le_refl _⟩

/-- Witness for C9 at a concrete saturating input: an allocation already
holding 2^256 - 1 purchase tokens keeps at least that value after adding 5
more. -/
theorem allocation_updates_monotone_witness :
    ({ purchase_amount := U256MAX, collateral_amount := 3,
       repurchase_obligation := { repurchase_amount := 4, collateral_amount := 5 } } :
        BidderAllocation).purchase_amount ≤
      (({ purchase_amount := U256MAX, collateral_amount := 3,
          repurchase_obligation := { repurchase_amount := 4, collateral_amount := 5 } } :
        BidderAllocation).update_purchase_amount 5).purchase_amount := by
  have h := allocation_updates_monotone
    { purchase_amount := U256MAX, collateral_amount := 3,
      repurchase_obligation := { repurchase_amount := 4, collateral_amount := 5 } }
    { repo_amount := U256MAX, purchase_amount := 7 }
    [] [] 5 5
    { id := 0, bidder := 0, bid_price_hash := 0, bid_price_revealed := 0, amount := 0,
      collateral_amount := 0, is_rollover := false,
      rollover_pair_off_term_repo_servicer := 0, is_revealed := false }
    { id := 0, offeror := 0, offer_price_hash := 0, offer_price_revealed := 0, amount := 0,
      purchase_token := 0, is_revealed := false }
    (by refine ⟨Nat.le_refl _, ?_, ?_, ?_⟩ <;> norm_num [U256MAX])
    (by refine ⟨Nat.le_refl _, ?_⟩; norm_num [U256MAX])
  exact h.1.1

/-- Claim C10: `verify_proof` never reads the verifying tree: any two tree
instances (of any contents) give the same verdict on any proof, and that
verdict is exactly the comparison of `proof.root` with the fold of
`proof.leaf` against `proof.siblings` steered by the bits of
`proof.index`. A proof valid for some past root therefore verifies
against any tree instance. -/
theorem verify_proof_tree_independent (H : Nat → Nat → Nat)
    (t1 t2 : List (List Nat)) (p : LeanIMTMerkleProof) :
    verify_proof H t1 p = verify_proof H t2 p ∧
      (verify_proof H t1 p = true ↔
        p.root = verifyFold H p.index p.siblings 0 p.leaf) := by
  constructor
  · rfl
  · unfold verify_proof
    simp only [decide_eq_true_eq]

/-- Claim C5: `save_or_update_order` case analysis, for both books. A
submission with zero effective size (zero `collateralAmount` for bids,
zero `amount` for offers) removes the key `address ++ id` and is a no-op
when that key is missing; on an existing key it overwrites only `amount`,
`collateralAmount` (bids) and the price commitment, leaving
`revealed_price` and `is_revealed` (and every other field) unchanged; on
an absent key it inserts a fresh entry with `revealed_price = 0` and
`is_revealed = false`. -/
theorem save_or_update_order_spec (book : Bids) (obook : Offers)
    (s : BidSubmission) (os : OfferSubmission) :
    (s.collateralAmount = 0 →
      Bids.save_or_update_order book s (get_key s.bidder s.id) = none ∧
      (∀ k, k ≠ get_key s.bidder s.id → Bids.save_or_update_order book s k = book k) ∧
      (book (get_key s.bidder s.id) = none → Bids.save_or_update_order book s = book)) ∧
    (s.collateralAmount ≠ 0 → ∀ b, book (get_key s.bidder s.id) = some b →
      Bids.save_or_update_order book s (get_key s.bidder s.id) =
        some { b with
          amount := s.amount
          collateral_amount := s.collateralAmount
          bid_price_hash := s.bidPriceHash } ∧
      (∀ k, k ≠ get_key s.bidder s.id → Bids.save_or_update_order book s k = book k)) ∧
    (s.collateralAmount ≠ 0 → book (get_key s.bidder s.id) = none →
      Bids.save_or_update_order book s (get_key s.bidder s.id) =
        some (Bid.from_order_submission s) ∧
      (Bid.from_order_submission s).bid_price_revealed = 0 ∧
      (Bid.from_order_submission s).is_revealed = false ∧
      (∀ k, k ≠ get_key s.bidder s.id → Bids.save_or_update_order book s k = book k)) ∧
    (os.amount = 0 →
      Offers.save_or_update_order obook os (get_key os.offeror os.id) = none ∧
      (∀ k, k ≠ get_key os.offeror os.id → Offers.save_or_update_order obook os k = obook k) ∧
      (obook (get_key os.offeror os.id) = none →
        Offers.save_or_update_order obook os = obook)) ∧
    (os.amount ≠ 0 → ∀ o, obook (get_key os.offeror os.id) = some o →
      Offers.save_or_update_order obook os (get_key os.offeror os.id) =
        some { o with amount := os.amount, offer_price_hash := os.offerPriceHash } ∧
      (∀ k, k ≠ get_key os.offeror os.id → Offers.save_or_update_order obook os k = obook k)) ∧
    (os.amount ≠ 0 → obook (get_key os.offeror os.id) = none →
      Offers.save_or_update_order obook os (get_key os.offeror os.id) =
        some (Offer.from_order_submission os) ∧
      (Offer.from_order_submission os).offer_price_revealed = 0 ∧
      (Offer.from_order_submission os).is_revealed = false ∧
      (∀ k, k ≠ get_key os.offeror os.id → Offers.save_or_update_order obook os k = obook k)) := by
  have hbz : ∀ hz : s.collateralAmount = 0,
      Bids.save_or_update_order book s =
        fun k => if k = get_key s.bidder s.id then none else book k := by
    intro hz
    unfold Bids.save_or_update_order
    rw [if_pos hz]
  have hbn : ∀ hnz : ¬ s.collateralAmount = 0,
      Bids.save_or_update_order book s =
        fun k =>
          if k = get_key s.bidder s.id then
            match book (get_key s.bidder s.id) with
            | some b => some (b.update_from_order_submission s)
            | none => some (Bid.from_order_submission s)
          else book k := by
    intro hnz
    unfold Bids.save_or_update_order
    rw [if_neg hnz]
  have hoz : ∀ hz : os.amount = 0,
      Offers.save_or_update_order obook os =
        fun k => if k = get_key os.offeror os.id then none else obook k := by
    intro hz
    unfold Offers.save_or_update_order
    rw [if_pos hz]
  have hon : ∀ hnz : ¬ os.amount = 0,
      Offers.save_or_update_order obook os =
        fun k =>
          if k = get_key os.offeror os.id then
            match obook (get_key os.offeror os.id) with
            | some o => some (o.update_from_order_submission os)
            | none => some (Offer.from_order_submission os)
          else obook k := by
    intro hnz
    unfold Offers.save_or_update_order
    rw [if_neg hnz]
  refine ⟨?_, ?_, ?_, ?_, ?_, ?_⟩
  · intro hz
    rw [hbz hz]
    refine ⟨if_pos rfl, fun k hk => if_neg hk, fun hmiss => ?_⟩
    funext k
    by_cases hk : k = get_key s.bidder s.id
    · rw [if_pos hk, hk, hmiss]
    · rw [if_neg hk]
  · intro hnz b hb
    rw [hbn hnz]
    refine ⟨?_, fun k hk => if_neg hk⟩
    beta_reduce
    rw [if_pos rfl, hb]
    rfl
  · intro hnz hmiss
    rw [hbn hnz]
    refine ⟨?_, rfl, rfl, fun k hk => if_neg hk⟩
    beta_reduce
    rw [if_pos rfl, hmiss]
  · intro hz
    rw [hoz hz]
    refine ⟨if_pos rfl, fun k hk => if_neg hk, fun hmiss => ?_⟩
    funext k
    by_cases hk : k = get_key os.offeror os.id
    · rw [if_pos hk, hk, hmiss]
    · rw [if_neg hk]
  · intro hnz o ho
    rw [hon hnz]
    refine ⟨?_, fun k hk => if_neg hk⟩
    beta_reduce
    rw [if_pos rfl, ho]
    rfl
  · intro hnz hmiss
    rw [hon hnz]
    refine ⟨?_, rfl, rfl, fun k hk => if_neg hk⟩
    beta_reduce
    rw [if_pos rfl, hmiss]

/-- Witness for C5 at a concrete input: a bid cancellation (zero
collateral) removes its key from a one-entry book. -/
theorem save_or_update_order_spec_witness :
    Bids.save_or_update_order
      (fun k => if k = get_key 1 2 then some (Bid.from_order_submission ⟨1, 2, 3, 4, 5⟩) else none)
      ⟨1, 2, 9, 9, 0⟩ (get_key 1 2) = none := by
  have h := save_or_update_order_spec
    (fun k => if k = get_key 1 2 then some (Bid.from_order_submission ⟨1, 2, 3, 4, 5⟩) else none)
    (fun _ => none) ⟨1, 2, 9, 9, 0⟩ ⟨1, 2, 3, 0, 4⟩
  exact (h.1 rfl).1

/-- Claim C6: applying a reveal sets the target entry's revealed price and
`is_revealed = true` iff the key is present, the recomputed commitment
`hash(price_be ++ nonce_be)` equals the stored commitment, and the price
is at most `MAX_BID_PRICE` (resp. `MAX_OFFER_PRICE`); in every other case
(commitment mismatch, price above the cap, or unknown key) the whole book
is unchanged. -/
theorem apply_order_reveal_spec (h : Nat → Nat → Nat) (book : Bids) (obook : Offers)
    (r : OrderReveal) :
    (∀ b, book r.orderId = some b →
      get_price_hash h r.price r.nonce = b.bid_price_hash → r.price ≤ MAX_BID_PRICE →
      Bids.apply_order_reveal h book r r.orderId =
        some { b with bid_price_revealed := r.price, is_revealed := true } ∧
      (∀ k, k ≠ r.orderId → Bids.apply_order_reveal h book r k = book k)) ∧
    (¬ (∃ b, book r.orderId = some b ∧
        get_price_hash h r.price r.nonce = b.bid_price_hash ∧ r.price ≤ MAX_BID_PRICE) →
      Bids.apply_order_reveal h book r = book) ∧
    (∀ o, obook r.orderId = some o →
      get_price_hash h r.price r.nonce = o.offer_price_hash → r.price ≤ MAX_OFFER_PRICE →
      Offers.apply_order_reveal h obook r r.orderId =
        some { o with offer_price_revealed := r.price, is_revealed := true } ∧
      (∀ k, k ≠ r.orderId → Offers.apply_order_reveal h obook r k = obook k)) ∧
    (¬ (∃ o, obook r.orderId = some o ∧
        get_price_hash h r.price r.nonce = o.offer_price_hash ∧ r.price ≤ MAX_OFFER_PRICE) →
      Offers.apply_order_reveal h obook r = obook) := by
  refine ⟨?_, ?_, ?_, ?_⟩
  · intro b hb hhash hcap
    unfold Bids.apply_order_reveal
    refine ⟨?_, fun k hk => if_neg hk⟩
    beta_reduce
    rw [if_pos rfl, hb]
    unfold Bid.update_from_order_reveal
    exact congrArg some (if_pos ⟨hhash, hcap⟩)
  · intro hfail
    unfold Bids.apply_order_reveal
    funext k
    by_cases hk : k = r.orderId
    · rw [if_pos hk, hk]
      cases hb : book r.orderId with
      | none => rfl
      | some b =>
        unfold Bid.update_from_order_reveal
        exact congrArg some (if_neg fun hcond :
          get_price_hash h r.price r.nonce = b.bid_price_hash ∧ r.price ≤ MAX_BID_PRICE =>
          hfail ⟨b, hb, hcond.1, hcond.2⟩)
    · rw [if_neg hk]
  · intro o ho hhash hcap
    unfold Offers.apply_order_reveal
    refine ⟨?_, fun k hk => if_neg hk⟩
    beta_reduce
    rw [if_pos rfl, ho]
    unfold Offer.update_from_order_reveal
    exact congrArg some (if_pos ⟨hhash, hcap⟩)
  · intro hfail
    unfold Offers.apply_order_reveal
    funext k
    by_cases hk : k = r.orderId
    · rw [if_pos hk, hk]
      cases ho : obook r.orderId with
      | none => rfl
      | some o =>
        unfold Offer.update_from_order_reveal
        exact congrArg some (if_neg fun hcond :
          get_price_hash h r.price r.nonce = o.offer_price_hash ∧ r.price ≤ MAX_OFFER_PRICE =>
          hfail ⟨o, ho, hcond.1, hcond.2⟩)
    · rw [if_neg hk]

/-- Witness for C6 at a concrete input: with the hash modelled as addition,
a matching reveal marks the single book entry revealed at its price. -/
theorem apply_order_reveal_spec_witness :
    Bids.apply_order_reveal (fun p n => p + n)
      (fun k => if k = 77 then some (Bid.from_order_submission ⟨1, 2, 1041, 4, 5⟩) else none)
      ⟨77, 1000, 41⟩ 77 =
      some { Bid.from_order_submission ⟨1, 2, 1041, 4, 5⟩ with
        bid_price_revealed := 1000, is_revealed := true } := by
  have h := apply_order_reveal_spec (fun p n => p + n)
    (fun k => if k = 77 then some (Bid.from_order_submission ⟨1, 2, 1041, 4, 5⟩) else none)
    (fun _ => none) ⟨77, 1000, 41⟩
  exact (h.1 (Bid.from_order_submission ⟨1, 2, 1041, 4, 5⟩) rfl rfl (by norm_num [MAX_BID_PRICE])).1

/-- A `getThen` that saturating-adds `amt` to the summed field (starting
from a zero default) increases the total by exactly `amt`, as long as the
new total does not exceed the saturation bound. -/
theorem AllocMap.sumG_getThen_satAdd {A : Type} (g : A → Nat) (addr : Nat) (dflt : A)
    (f : A → A) (amt : Nat) (hdflt : g dflt = 0) (hf : ∀ v, g (f v) = satAdd (g v) amt) :
    ∀ m : AllocMap A, AllocMap.sumG g m + amt ≤ U256MAX →
      AllocMap.sumG g (AllocMap.getThen m addr dflt f) = AllocMap.sumG g m + amt := by
  intro m
  induction m with
  | nil =>
    intro hle
    unfold AllocMap.getThen AllocMap.sumG at *
    simp only [List.map_nil, List.sum_nil, List.map_cons, List.sum_cons, Nat.zero_add] at *
    rw [hf, hdflt, satAdd]
    omega
  | cons hd tl ih =>
    obtain ⟨a, v⟩ := hd
    intro hle
    unfold AllocMap.getThen
    by_cases ha : a = addr
    · rw [if_pos ha]
      unfold AllocMap.sumG at *
      simp only [List.map_cons, List.sum_cons] at *
      rw [hf, satAdd]
      omega
    · rw [if_neg ha]
      unfold AllocMap.sumG at *
      simp only [List.map_cons, List.sum_cons] at *
      rw [ih (by omega)]
      omega

/-- Unlocking a list of validated offers into a map adds exactly the sum of
their amounts to the total purchase credit, absent saturation. -/
theorem sumPurchase_unlock_offers :
    ∀ (offers : List Offer) (m : OfferorAllocations),
      OfferorAllocations.sumPurchase m + (offers.map (fun o => o.amount)).sum ≤ U256MAX →
      OfferorAllocations.sumPurchase (unlock_outstanding_offers offers m) =
        OfferorAllocations.sumPurchase m + (offers.map (fun o => o.amount)).sum := by
  intro offers
  induction offers with
  | nil =>
    intro m hle
    unfold unlock_outstanding_offers
    simp
  | cons o rest ih =>
    intro m hle
    unfold unlock_outstanding_offers at *
    simp only [List.foldl_cons, List.map_cons, List.sum_cons] at *
    have hstep : OfferorAllocations.sumPurchase (OfferorAllocations.add_from_order m o) =
        OfferorAllocations.sumPurchase m + o.amount := by
      unfold OfferorAllocations.add_from_order
      have hequiv : AllocMap.sumG (fun a => a.purchase_amount) m =
          OfferorAllocations.sumPurchase m := rfl
      have := AllocMap.sumG_getThen_satAdd (fun a => a.purchase_amount) o.offeror
        OfferorAllocation.default (fun a => a.update_purchase_amount o.amount) o.amount rfl
        (fun v => rfl) m (by rw [hequiv]; omega)
      rw [hequiv] at this
      exact this
    rw [ih _ (by rw [hstep]; omega), hstep]
    omega

/-- Unlocking a list of validated bids into a map adds exactly the sum of
their collateral amounts to the total collateral credit, absent
saturation. -/
theorem sumCollateral_unlock_bids :
    ∀ (bids : List Bid) (m : BidderAllocations),
      BidderAllocations.sumCollateral m + (bids.map (fun b => b.collateral_amount)).sum ≤ U256MAX →
      BidderAllocations.sumCollateral (unlock_outstanding_bids bids m) =
        BidderAllocations.sumCollateral m + (bids.map (fun b => b.collateral_amount)).sum := by
  intro bids
  induction bids with
  | nil =>
    intro m hle
    unfold unlock_outstanding_bids
    simp
  | cons b rest ih =>
    intro m hle
    unfold unlock_outstanding_bids at *
    simp only [List.foldl_cons, List.map_cons, List.sum_cons] at *
    have hstep : BidderAllocations.sumCollateral (BidderAllocations.add_from_order m b) =
        BidderAllocations.sumCollateral m + b.collateral_amount := by
      unfold BidderAllocations.add_from_order
      have hequiv : AllocMap.sumG (fun a => a.collateral_amount) m =
          BidderAllocations.sumCollateral m := rfl
      have := AllocMap.sumG_getThen_satAdd (fun a => a.collateral_amount) b.bidder
        BidderAllocation.default (fun a => a.update_collateral_amount b.collateral_amount)
        b.collateral_amount rfl (fun v => rfl) m (by rw [hequiv]; omega)
      rw [hequiv] at this
      exact this
    rw [ih _ (by rw [hstep]; omega), hstep]
    omega

/-- Claim C7 as amended: when the market does not intersect and all
validated orders are unlocked via `unlock_outstanding_orders` into empty
allocation maps, the total offeror `purchase_amount` equals the sum of the
validated offer amounts and the total bidder `collateral_amount` equals
the sum of the validated bid collateral amounts, PROVIDED each total stays
within 2^256 - 1 (the credits are `saturating_add`, so a sum that
overflows U256 is clamped and the equality fails; see the
counterexample). -/
theorem conservation_at_unlock (offers : List Offer) (bids : List Bid)
    (ho : (offers.map (fun o => o.amount)).sum ≤ U256MAX)
    (hb : (bids.map (fun b => b.collateral_amount)).sum ≤ U256MAX) :
    OfferorAllocations.sumPurchase (unlock_outstanding_offers offers []) =
      (offers.map (fun o => o.amount)).sum ∧
    BidderAllocations.sumCollateral (unlock_outstanding_bids bids []) =
      (bids.map (fun b => b.collateral_amount)).sum := by
  constructor
  · have h := sumPurchase_unlock_offers offers []
      (by unfold OfferorAllocations.sumPurchase; simpa using ho)
    unfold OfferorAllocations.sumPurchase at *
    simpa using h
  · have h := sumCollateral_unlock_bids bids []
      (by unfold BidderAllocations.sumCollateral; simpa using hb)
    unfold BidderAllocations.sumCollateral at *
    simpa using h

/-- Witness for C7 at a concrete input: one offer of amount 40 and one bid
with collateral 15 refund exactly 40 and 15. -/
theorem conservation_at_unlock_witness :
    OfferorAllocations.sumPurchase (unlock_outstanding_offers
      [{ id := 0, offeror := 3, offer_price_hash := 0, offer_price_revealed := 5, amount := 40,
         purchase_token := 0, is_revealed := true }] []) = 40 ∧
    BidderAllocations.sumCollateral (unlock_outstanding_bids
      [{ id := 0, bidder := 4, bid_price_hash := 0, bid_price_revealed := 5, amount := 10,
         collateral_amount := 15, is_rollover := false,
         rollover_pair_off_term_repo_servicer := 0, is_revealed := true }] []) = 15 := by
  have h := conservation_at_unlock
    [{ id := 0, offeror := 3, offer_price_hash := 0, offer_price_revealed := 5, amount := 40,
       purchase_token := 0, is_revealed := true }]
    [{ id := 0, bidder := 4, bid_price_hash := 0, bid_price_revealed := 5, amount := 10,
       collateral_amount := 15, is_rollover := false,
       rollover_pair_off_term_repo_servicer := 0, is_revealed := true }]
    (by norm_num [U256MAX]) (by norm_num [U256MAX])
  simpa using h

/-- Counterexample to C7 as frozen: two validated offers by the same
offeror, each of amount 2^256 - 1, unlock to a saturated credit of
2^256 - 1, which is not the sum 2 * (2^256 - 1) of the offer amounts. -/
theorem conservation_at_unlock_counterexample :
    ¬ (OfferorAllocations.sumPurchase
        (unlock_outstanding_offers [hugeOffer 0, hugeOffer 1] []) =
      (([hugeOffer 0, hugeOffer 1] : List Offer).map (fun o => o.amount)).sum) := by
  unfold unlock_outstanding_offers OfferorAllocations.add_from_order AllocMap.getThen
    OfferorAllocations.sumPurchase OfferorAllocation.update_purchase_amount satAdd
    OfferorAllocation.default hugeOffer U256MAX
  norm_num

/-- Claim C1 refutation at concrete inputs: the engine is not total. On the
validated books of spec scenario S4 (one bid at 1000, one offer at 1000, a
trivially intersecting market), `compute_clearing_price` panics: the first
`increase_cum_sum_bids` call starts at index 0 with `bids[0].price >=
offer_price`, executes `i -= 1` on `i = 0`, and the wrapped index is out
of bounds. Likewise `find_last_index_for_price` on a one-offer book
indexes `offers[1]` out of bounds (its break condition is
`i < offers.len() - 1 || offers[i + 1].price != price`, which
short-circuits into the out-of-bounds read whenever `i` is the last
index), so `ValidatedOffers::assign` panics whenever its walk reaches the
last offer. -/
theorem engine_not_total :
    compute_clearing_price [s4Bid] [s4Offer] = none ∧
    find_last_index_for_price 1000 [s4Offer] 0 = none := by
  constructor
  · simp [compute_clearing_price, increase_cum_sum_bids, increaseLoop, s4Bid, s4Offer]
  · simp [find_last_index_for_price, flLoop, s4Offer]

/-- Claim C2 refutation at the claim's own concrete input: on the
partial-fill scenario S5 (bids of 60 and 40 at price 1000,
`max_assignable = 50`, clearing price 1000), `ValidatedBids::assign`
panics instead of completing the 30/20 split. Its partial-assignment loop
has no `i == inner_index` break (unlike the full-assignment loop just
above it), so after the head of a price group that starts at index 0 is
processed, `inner_index` exceeds `i`, the usize subtraction
`i - inner_index` wraps, and the body indexes out of bounds. This holds
for every repurchase-price function `rp`, since the panic precedes any
use of its result. -/
theorem partial_assignment_panics (rp : Nat → Nat → Nat → Nat) :
    ValidatedBids.assign rp [s5Bid60, s5Bid40] 50 1000 360 [] = none := by
  simp [ValidatedBids.assign, assignBidsLoop, find_first_index_for_price, ffLoop,
    partLoop, Bid.partially_assign, s5Bid60, s5Bid40, uadd, usub, U256MOD, satAdd]

/-- Length of one built Merkle level: pairing halves, rounding up. -/
theorem pairUp_length (H : Nat → Nat → Nat) :
    ∀ L : List Nat, (pairUp H L).length = (L.length + 1) / 2 := by
  intro L
  induction L using pairUp.induct H with
  | case1 => simp [pairUp]
  | case2 x => simp [pairUp]
  | case3 x y rest ih =>
    unfold pairUp
    simp only [List.length_cons, ih]
    omega

/-- Entry `j` of a built level is the hash of entries `2j` and `2j + 1` of
the level below, or the promoted entry `2j` when it has no right
neighbour. -/
theorem pairUp_get (H : Nat → Nat → Nat) :
    ∀ (L : List Nat) (j x : Nat), L.get? (2 * j) = some x →
      (pairUp H L).get? j =
        some (match L.get? (2 * j + 1) with
          | some y => H x y
          | none => x) := by
  intro L
  induction L using pairUp.induct H with
  | case1 =>
    intro j x hx
    simp at hx
  | case2 a =>
    intro j x hx
    match j with
    | 0 =>
      simp only [List.get?] at hx ⊢
      cases hx
      rfl
    | j + 1 =>
      rw [show 2 * (j + 1) = (2 * j + 1) + 1 by ring] at hx
      simp [List.get?] at hx
  | case3 a b rest ih =>
    intro j x hx
    match j with
    | 0 =>
      simp only [Nat.mul_zero, List.get?] at hx ⊢
      cases hx
      rfl
    | j + 1 =>
      rw [show 2 * (j + 1) = (2 * j) + 1 + 1 by ring] at hx
      simp only [List.get?] at hx
      unfold pairUp
      rw [show 2 * (j + 1) + 1 = ((2 * j) + 1) + 1 + 1 by ring]
      simp only [List.get?]
      exact ih j x hx

/-- A built level keeps a nonempty level nonempty. -/
theorem pairUp_ne_nil (H : Nat → Nat → Nat) (L : List Nat) (h : L ≠ []) :
    pairUp H L ≠ [] := by
  match L, h with
  | [x], _ => simp [pairUp]
  | x :: y :: rest, _ => simp [pairUp]

/-- One level of sibling collection viewed through `pairUp`: starting from
entry `i` of a level, the collected step (a hash with the recorded
sibling, or nothing for a promoted lone node) lands exactly on entry
`i / 2` of the built level above. -/
theorem collectPath_cons (level : List Nat) (rest : List (List Nat)) (idx : Nat) :
    collectPath (level :: rest) idx =
      match level.get? (if idx % 2 == 1 then idx - 1 else idx + 1) with
      | some s => ((idx % 2 == 1 : Bool), s) :: collectPath rest (idx / 2)
      | none => collectPath rest (idx / 2) := rfl

/-- One level of sibling collection viewed through `pairUp`: starting from
entry `i` of a level, the collected step (a hash with the recorded
sibling, or nothing for a promoted lone node) lands exactly on entry
`i / 2` of the built level above. -/
theorem collect_step (H : Nat → Nat → Nat) (L : List Nat) (rest : List (List Nat))
    (i x : Nat) (hx : L.get? i = some x) :
    ∃ y, (pairUp H L).get? (i / 2) = some y ∧
      applyPath H (collectPath (L :: rest) i) x =
        applyPath H (collectPath rest (i / 2)) y := by
  have hi : i < L.length := by
    cases Nat.lt_or_ge i L.length with
    | inl hl => exact hl
    | inr hr => rw [List.get?_eq_none.mpr hr] at hx; cases hx
  rcases Nat.even_or_odd i with he | ho
  · obtain ⟨m, hm⟩ := he
    have h2m : (2 : Nat) * m = i := by omega
    have hdiv : i / 2 = m := by omega
    have hbit : (i % 2 == 1) = false := by
      have h0 : i % 2 = 0 := by omega
      simp [h0]
    have hget : (pairUp H L).get? (i / 2) =
        some (match L.get? (2 * m + 1) with
          | some y => H x y
          | none => x) := by
      rw [hdiv]
      exact pairUp_get H L m x (by rw [h2m]; exact hx)
    cases hs : L.get? (i + 1) with
    | none =>
      refine ⟨x, ?_, ?_⟩
      · rw [hget, show 2 * m + 1 = i + 1 by omega, hs]
      · rw [collectPath_cons, hbit]
        simp only [Bool.false_eq_true, if_false]
        rw [hs]
    | some s =>
      refine ⟨H x s, ?_, ?_⟩
      · rw [hget, show 2 * m + 1 = i + 1 by omega, hs]
      · rw [collectPath_cons, hbit]
        simp only [Bool.false_eq_true, if_false]
        rw [hs]
        rfl
  · obtain ⟨m, hm⟩ := ho
    have hdiv : i / 2 = m := by omega
    have hbit : (i % 2 == 1) = true := by
      have h1 : i % 2 = 1 := by omega
      simp [h1]
    cases hs : L.get? (2 * m) with
    | none =>
      rw [List.get?_eq_none] at hs
      omega
    | some s =>
      refine ⟨H s x, ?_, ?_⟩
      · rw [hdiv, pairUp_get H L m s hs, show 2 * m + 1 = i by omega, hx]
      · rw [collectPath_cons, hbit]
        simp only [if_true]
        rw [show i - 1 = 2 * m by omega, hs]
        rfl

/-- The level list is never empty. -/
theorem iterLevels_ne_nil (H : Nat → Nat → Nat) (d : Nat) (L : List Nat) :
    iterLevels H d L ≠ [] := by
  cases d <;> simp [iterLevels]

/-- The bottom level of the built tree is the leaf list. -/
theorem iterLevels_head (H : Nat → Nat → Nat) (d : Nat) (L : List Nat) :
    (iterLevels H d L).headD [] = L := by
  cases d <;> rfl

/-- Walking the collected path from entry `i` of the bottom level reaches
entry `i / 2^d` of the top level. -/
theorem applyPath_collect (H : Nat → Nat → Nat) :
    ∀ (d : Nat) (L : List Nat) (i x : Nat), L.get? i = some x →
      ∃ y, ((iterLevels H d L).getLastD []).get? (i / 2 ^ d) = some y ∧
        applyPath H (collectPath (iterLevels H d L).dropLast i) x = y := by
  intro d
  induction d with
  | zero =>
    intro L i x hx
    refine ⟨x, ?_, rfl⟩
    simpa using hx
  | succ d ih =>
    intro L i x hx
    have hlvl : iterLevels H (d + 1) L = L :: iterLevels H d (pairUp H L) := rfl
    have hdrop : (iterLevels H (d + 1) L).dropLast =
        L :: (iterLevels H d (pairUp H L)).dropLast := by
      rw [hlvl]
      exact List.dropLast_cons_of_ne_nil (iterLevels_ne_nil H d (pairUp H L))
    obtain ⟨y, hy, hstep⟩ := collect_step H L ((iterLevels H d (pairUp H L)).dropLast) i x hx
    obtain ⟨z, hz, happ⟩ := ih (pairUp H L) (i / 2) y hy
    refine ⟨z, ?_, ?_⟩
    · rw [hlvl]
      have : (L :: iterLevels H d (pairUp H L)).getLastD [] =
          (iterLevels H d (pairUp H L)).getLastD [] := by
        cases hit : iterLevels H d (pairUp H L) with
        | nil => exact absurd hit (iterLevels_ne_nil H d (pairUp H L))
        | cons a t => simp [List.getLastD_cons]
      rw [this]
      rw [show i / 2 ^ (d + 1) = i / 2 / 2 ^ d by
        rw [Nat.div_div_eq_div_mul]
        congr 1
        ring]
      exact hz
    · rw [hdrop, hstep, happ]

/-- The top level of a tree over at most `2^d` leaves (and at least one)
is a single node. -/
theorem iterLevels_top_length (H : Nat → Nat → Nat) :
    ∀ (d : Nat) (L : List Nat), 1 ≤ L.length → L.length ≤ 2 ^ d →
      ((iterLevels H d L).getLastD []).length = 1 := by
  intro d
  induction d with
  | zero =>
    intro L h1 h2
    simp only [pow_zero] at h2
    simp only [iterLevels, List.getLastD_cons, List.getLastD_nil]
    omega
  | succ d ih =>
    intro L h1 h2
    have hlvl : iterLevels H (d + 1) L = L :: iterLevels H d (pairUp H L) := rfl
    rw [hlvl]
    have hcons : (L :: iterLevels H d (pairUp H L)).getLastD [] =
        (iterLevels H d (pairUp H L)).getLastD [] := by
      cases hit : iterLevels H d (pairUp H L) with
      | nil => exact absurd hit (iterLevels_ne_nil H d (pairUp H L))
      | cons a t => simp [List.getLastD_cons]
    rw [hcons]
    refine ih (pairUp H L) ?_ ?_
    · rw [pairUp_length]
      omega
    · rw [pairUp_length]
      have : 2 ^ (d + 1) = 2 * 2 ^ d := by ring
      omega

theorem packIndex_cons (b : Bool) (s : Nat) (rest : List (Bool × Nat)) :
    packIndex ((b, s) :: rest) = (if b then 1 else 0) + 2 * packIndex rest := rfl

/-- The packed proof index drives `verifyFold` through exactly the
recorded directions: folding with the packed index equals replaying the
path. -/
theorem verifyFold_packIndex (H : Nat → Nat → Nat) :
    ∀ (path : List (Bool × Nat)) (pos a x : Nat), a < 2 ^ pos →
      verifyFold H (a + 2 ^ pos * packIndex path) (path.map Prod.snd) pos x =
        applyPath H path x := by
  intro path
  induction path with
  | nil =>
    intro pos a x ha
    rfl
  | cons hd rest ih =>
    intro pos a x ha
    obtain ⟨b, s⟩ := hd
    have hpow : (0 : Nat) < 2 ^ pos := Nat.pos_pow_of_pos pos (by omega)
    have hdiv : (a + 2 ^ pos * packIndex ((b, s) :: rest)) / 2 ^ pos =
        packIndex ((b, s) :: rest) := by
      rw [Nat.add_mul_div_left _ _ hpow, Nat.div_eq_of_lt ha]
      omega
    have hidx : a + 2 ^ pos * packIndex ((b, s) :: rest) =
        (a + 2 ^ pos * (if b then 1 else 0)) + 2 ^ (pos + 1) * packIndex rest := by
      rw [packIndex_cons]
      ring
    cases b with
    | true =>
      have hpk : packIndex ((true, s) :: rest) = 1 + 2 * packIndex rest := rfl
      have hbit : (a + 2 ^ pos * packIndex ((true, s) :: rest)) / 2 ^ pos % 2 = 1 := by
        rw [hdiv, hpk]
        omega
      simp only [List.map_cons, verifyFold, hbit, if_pos rfl]
      rw [hidx]
      simp only [if_pos rfl]
      exact ih (pos + 1) (a + 2 ^ pos * 1) (H s x)
        (by rw [pow_succ]; omega)
    | false =>
      have hpk : packIndex ((false, s) :: rest) = 0 + 2 * packIndex rest := rfl
      have hbit : ¬ (a + 2 ^ pos * packIndex ((false, s) :: rest)) / 2 ^ pos % 2 = 1 := by
        rw [hdiv, hpk]
        omega
      simp only [List.map_cons, verifyFold, hbit, if_neg hbit]
      rw [hidx]
      simp only [if_neg, Bool.false_eq_true, if_false]
      exact ih (pos + 1) (a + 2 ^ pos * 0) (H x s)
        (by rw [pow_succ]; omega)

/-- The size of a freshly built tree is the number of leaves. -/
theorem treeSize_newTree (H : Nat → Nat → Nat) (leaves : List Nat) :
    treeSize (newTree H leaves) = leaves.length := by
  unfold treeSize newTree
  rw [iterLevels_head]

/-- Claim C8: for every nonempty leaf sequence and every index `i` below
the leaf count, `generate_proof(i)` on the freshly built lean incremental
Merkle tree succeeds and `verify_proof` accepts the generated proof; and
`generate_proof` returns an error (`none` here) for every index at or
beyond the leaf count. Holds for every node-hash function `H`. -/
theorem merkle_roundtrip (H : Nat → Nat → Nat) (leaves : List Nat) (i : Nat)
    ( _hne : leaves ≠ []) (hi : i < leaves.length) :
    (∃ p, generate_proof (newTree H leaves) i = some p ∧
        verify_proof H (newTree H leaves) p = true) ∧
    (∀ j, leaves.length ≤ j → generate_proof (newTree H leaves) j = none) := by
  have hsize := treeSize_newTree H leaves
  constructor
  · obtain ⟨x, hx⟩ : ∃ x, leaves.get? i = some x := by
      cases hget : leaves.get? i with
      | none => rw [List.get?_eq_none] at hget; omega
      | some x => exact ⟨x, rfl⟩
    have hhead : (newTree H leaves).headD [] = leaves := iterLevels_head H _ leaves
    obtain ⟨y, hy, happ⟩ :=
      applyPath_collect H (Nat.clog 2 leaves.length) leaves i x hx
    have hipow : i / 2 ^ Nat.clog 2 leaves.length = 0 := by
      refine Nat.div_eq_of_lt ?_
      have := Nat.le_pow_clog (by omega : 1 < 2) leaves.length
      omega
    rw [hipow] at hy
    have hroot : treeRoot (newTree H leaves) = y := by
      unfold treeRoot newTree
      cases htop : (iterLevels H (Nat.clog 2 leaves.length) leaves).getLastD [] with
      | nil =>
        rw [htop] at hy
        cases hy
      | cons a t =>
        rw [htop] at hy
        simp only [List.get?] at hy
        cases hy
        rfl
    refine ⟨{ root := treeRoot (newTree H leaves), leaf := x,
              index := packIndex (collectPath (newTree H leaves).dropLast i),
              siblings := (collectPath (newTree H leaves).dropLast i).map Prod.snd },
            ?_, ?_⟩
    · unfold generate_proof
      rw [hsize, if_neg (by omega : ¬ leaves.length ≤ i), hhead, hx]
    · unfold verify_proof
      simp only [decide_eq_true_eq]
      have hfold := verifyFold_packIndex H
        (collectPath (newTree H leaves).dropLast i) 0 0 x (by norm_num)
      simp only [pow_zero, Nat.zero_add, Nat.one_mul] at hfold
      rw [hfold]
      exact hroot.trans happ.symm
  · intro j hj
    unfold generate_proof
    rw [hsize, if_pos hj]

/-- Witness for C8 at a concrete input: a three-leaf tree (so one level has
a promoted lone node), index 1, with a concrete injective-enough hash. -/
theorem merkle_roundtrip_witness :
    (∃ p, generate_proof (newTree (fun a b => a + 3 * b) [10, 20, 30]) 1 = some p ∧
        verify_proof (fun a b => a + 3 * b)
          (newTree (fun a b => a + 3 * b) [10, 20, 30]) p = true) ∧
    (∀ j, ([10, 20, 30] : List Nat).length ≤ j →
        generate_proof (newTree (fun a b => a + 3 * b) [10, 20, 30]) j = none) :=
  merkle_roundtrip (fun a b => a + 3 * b) [10, 20, 30] 1 (by simp) (by simp)

/-- In a sorted bid book, prices are monotone in the index. -/
theorem sortedBids_mono (bids : List Bid) (hs : sortedBids bids) (i j : Nat) (hij : i ≤ j)
    (a b : Bid) (ha : bids.get? i = some a) (hb : bids.get? j = some b) :
    a.bid_price_revealed ≤ b.bid_price_revealed := by
  have hi : i < bids.length := by
    cases Nat.lt_or_ge i bids.length with
    | inl hl => exact hl
    | inr hr => rw [List.get?_eq_none.mpr hr] at ha; cases ha
  have hj : j < bids.length := by
    cases Nat.lt_or_ge j bids.length with
    | inl hl => exact hl
    | inr hr => rw [List.get?_eq_none.mpr hr] at hb; cases hb
  rw [List.get?_eq_get hi] at ha
  rw [List.get?_eq_get hj] at hb
  cases ha
  cases hb
  rcases Nat.eq_or_lt_of_le hij with he | hlt
  · subst he
    exact Nat.le_refl _
  · exact (List.pairwise_iff_get.mp hs) ⟨i, hi⟩ ⟨j, hj⟩ hlt

/-- In a sorted offer book, prices are monotone in the index. -/
theorem sortedOffers_mono (offers : List Offer) (hs : sortedOffers offers) (i j : Nat)
    (hij : i ≤ j) (a b : Offer) (ha : offers.get? i = some a) (hb : offers.get? j = some b) :
    a.offer_price_revealed ≤ b.offer_price_revealed := by
  have hi : i < offers.length := by
    cases Nat.lt_or_ge i offers.length with
    | inl hl => exact hl
    | inr hr => rw [List.get?_eq_none.mpr hr] at ha; cases ha
  have hj : j < offers.length := by
    cases Nat.lt_or_ge j offers.length with
    | inl hl => exact hl
    | inr hr => rw [List.get?_eq_none.mpr hr] at hb; cases hb
  rw [List.get?_eq_get hi] at ha
  rw [List.get?_eq_get hj] at hb
  cases ha
  cases hb
  rcases Nat.eq_or_lt_of_le hij with he | hlt
  · subst he
    exact Nat.le_refl _
  · exact (List.pairwise_iff_get.mp hs) ⟨i, hi⟩ ⟨j, hj⟩ hlt

/-- Monotonicity: `decrease_cum_sum_bids` never moves its index backwards. -/
theorem decrease_idx_ge (bids : List Bid) (p : Nat) :
    ∀ n start cum, bids.length - start ≤ n →
      start ≤ (decrease_cum_sum_bids bids start cum p).2 := by
  intro n
  induction n with
  | zero =>
    intro start cum hn
    rw [decrease_cum_sum_bids]
    have : bids.length ≤ start := by omega
    rw [List.get?_eq_none.mpr this]
  | succ n ih =>
    intro start cum hn
    rw [decrease_cum_sum_bids]
    cases h : bids.get? start with
    | none => exact Nat.le_refl _
    | some b =>
      by_cases hp : b.bid_price_revealed < p
      · simp only [if_pos hp]
        have hlt : start < bids.length := by
          cases Nat.lt_or_ge start bids.length with
          | inl hl => exact hl
          | inr hr => rw [List.get?_eq_none.mpr hr] at h; cases h
        have := ih (start + 1) (usub cum b.amount) (by omega)
        omega
      · simp only [if_neg hp]
        exact Nat.le_refl _

/-- Phase A (`phaseA`) never moves `bid_index` backwards. -/
theorem phaseA_bid_index_ge (bids : List Bid) (offers : List Offer) :
    ∀ n (s : CPvars) (maxv : Nat), offers.length - s.offer_index ≤ n →
      s.bid_index ≤ (phaseA bids offers s maxv).bid_index := by
  intro n
  induction n with
  | zero =>
    intro s maxv hn
    rw [phaseA]
    have hge : offers.length ≤ s.offer_index := by omega
    rw [dif_neg (by omega : ¬ (s.offer_index < offers.length ∧ s.bid_index < bids.length))]
  | succ n ih =>
    intro s maxv hn
    rw [phaseA]
    split
    · rename_i hg
      split
      · exact Nat.le_refl _
      · rename_i o ho
        simp only []
        split
        · rename_i hcommit
          have hdec := decrease_idx_ge bids o.offer_price_revealed
            (bids.length - s.bid_index) s.bid_index s.cum_sum_bids (Nat.le_refl _)
          have hrec := ih
            { offer_index := s.offer_index + 1 +
                (offerGroupLoop offers o.offer_price_revealed (s.offer_index + 1)
                  (uadd s.cum_sum_offers o.amount)).2
              bid_index := (decrease_cum_sum_bids bids s.bid_index s.cum_sum_bids
                o.offer_price_revealed).2
              cum_sum_offers := (offerGroupLoop offers o.offer_price_revealed
                (s.offer_index + 1) (uadd s.cum_sum_offers o.amount)).1
              cum_sum_bids := (decrease_cum_sum_bids bids s.bid_index s.cum_sum_bids
                o.offer_price_revealed).1 }
            (min (decrease_cum_sum_bids bids s.bid_index s.cum_sum_bids
              o.offer_price_revealed).1
              (offerGroupLoop offers o.offer_price_revealed (s.offer_index + 1)
                (uadd s.cum_sum_offers o.amount)).1)
            (by
              have : s.offer_index < offers.length := hg.1
              simp only []
              omega)
          simp only [] at hrec
          omega
        · exact Nat.le_refl _
    · exact Nat.le_refl _

/-- Phase A (`phaseA`) either leaves `offer_index` unchanged or started with
`bid_index` inside the bid book. -/
theorem phaseA_offer_index_cases (bids : List Bid) (offers : List Offer)
    (s : CPvars) (maxv : Nat) :
    (phaseA bids offers s maxv).offer_index = s.offer_index ∨ s.bid_index < bids.length := by
  rw [phaseA]
  split
  · rename_i hg
    exact Or.inr hg.2
  · exact Or.inl rfl

/-- Phase B (`phaseB`) never moves the bid index backwards. -/
theorem phaseB_bi_ge (bids : List Bid) (nop cso : Nat) :
    ∀ n bi csb, bids.length - bi ≤ n → bi ≤ (phaseB bids nop cso bi csb).2 := by
  intro n
  induction n with
  | zero =>
    intro bi csb hn
    rw [phaseB]
    have : bids.length ≤ bi := by omega
    rw [List.get?_eq_none.mpr this]
  | succ n ih =>
    intro bi csb hn
    rw [phaseB]
    cases h : bids.get? bi with
    | none => exact Nat.le_refl _
    | some b =>
      have hlt : bi < bids.length := by
        cases Nat.lt_or_ge bi bids.length with
        | inl hl => exact hl
        | inr hr => rw [List.get?_eq_none.mpr hr] at h; cases h
      by_cases hp : b.bid_price_revealed < nop
      · simp only [if_pos hp]
        by_cases hc : (bidGroupLoop bids b.bid_price_revealed (bi + 1) (usub csb b.amount)).1 < cso
        · simp only [if_pos hc]
          have := ih (bi + 1 +
            (bidGroupLoop bids b.bid_price_revealed (bi + 1) (usub csb b.amount)).2)
            (bidGroupLoop bids b.bid_price_revealed (bi + 1) (usub csb b.amount)).1
            (by omega)
          omega
        · simp only [if_neg hc]
          exact Nat.le_refl _
      · simp only [if_neg hp]
        exact Nat.le_refl _

/-- Post-condition of the initial cumulative-bid walk: the returned index
is at most one past the start, and whenever it still points into the
walked range, the bid there has price at least the walk price. -/
theorem increaseLoop_post (bids : List Bid) (p : Nat) :
    ∀ (n i cum c fi : Nat), i ≤ n → increaseLoop bids p i cum = some (c, fi) →
      fi ≤ i + 1 ∧ (fi ≤ i → ∃ bb, bids.get? fi = some bb ∧ p ≤ bb.bid_price_revealed) := by
  have hfinal : ∀ (j cum c fi : Nat), increaseFinal bids p j cum = some (c, fi) →
      ∃ bb, bids.get? j = some bb ∧
        fi = (if bb.bid_price_revealed < p then j + 1 else j) := by
    intro j cum c fi h
    unfold increaseFinal at h
    cases hg : bids.get? j with
    | none => rw [hg] at h; cases h
    | some bb =>
      rw [hg] at h
      simp only [Option.some.injEq, Prod.mk.injEq] at h
      exact ⟨bb, rfl, h.2.symm⟩
  intro n
  induction n with
  | zero =>
    intro i cum c fi hi h
    interval_cases i
    rw [increaseLoop] at h
    cases hg : bids.get? 0 with
    | none => rw [hg] at h; cases h
    | some b =>
      rw [hg] at h
      simp only [] at h
      split at h
      · simp only [if_true] at h
        cases h
      · rename_i hp
        obtain ⟨bb, hbb, hfi⟩ := hfinal 0 cum c fi h
        have hbe : bb = b := by rw [hg] at hbb; cases hbb; rfl
        subst hbe
        rw [if_pos (by omega : bb.bid_price_revealed < p)] at hfi
        subst hfi
        exact ⟨by omega, by omega⟩
  | succ n ih =>
    intro i cum c fi hi h
    rw [increaseLoop] at h
    cases hg : bids.get? i with
    | none => rw [hg] at h; cases h
    | some b =>
      rw [hg] at h
      simp only [] at h
      split at h
      · rename_i hp
        split at h
        · cases h
        · rename_i hz
          split at h
          · rename_i hz1
            obtain ⟨bb, hbb, hfi⟩ := hfinal 0 (uadd cum b.amount) c fi h
            by_cases hp0 : bb.bid_price_revealed < p
            · rw [if_pos hp0] at hfi
              subst hfi
              refine ⟨by omega, fun hle => ⟨b, ?_, hp⟩⟩
              rw [show i = 1 by omega] at hg
              exact hg
            · rw [if_neg hp0] at hfi
              subst hfi
              exact ⟨by omega, fun hle => ⟨bb, hbb, by omega⟩⟩
          · rename_i hz1
            obtain ⟨h1, h2⟩ := ih (i - 1) (uadd cum b.amount) c fi (by omega) h
            refine ⟨by omega, fun hle => ?_⟩
            by_cases hfe : fi ≤ i - 1
            · exact h2 hfe
            · refine ⟨b, ?_, hp⟩
              rw [show fi = i by omega]
              exact hg
      · rename_i hp
        obtain ⟨bb, hbb, hfi⟩ := hfinal i cum c fi h
        have hbe : bb = b := by rw [hg] at hbb; cases hbb; rfl
        subst hbe
        rw [if_pos (by omega : bb.bid_price_revealed < p)] at hfi
        subst hfi
        exact ⟨by omega, by omega⟩

/-- The `next_offer_price_index` walk never moves its index forwards. -/
theorem noiLoop_le (offers : List Offer) (p : Nat) :
    ∀ (start r : Nat), noiLoop offers p start = some r → r ≤ start := by
  intro start
  induction start with
  | zero =>
    intro r h
    rw [noiLoop] at h
    rw [if_pos rfl] at h
    injection h with h0
    omega
  | succ n ih =>
    intro r h
    rw [noiLoop] at h
    rw [if_neg (by omega : ¬ n + 1 = 0)] at h
    cases hg : offers.get? (n + 1) with
    | none => rw [hg] at h; cases h
    | some o =>
      rw [hg] at h
      simp only [] at h
      split at h
      · simp only [Nat.add_sub_cancel] at h
        have := ih r h
        omega
      · simp only [Option.some.injEq] at h
        omega

/-- The `next_bid_price_index` walk never moves its index backwards. -/
theorem nbpiLoop_ge (bids : List Bid) (p : Nat) :
    ∀ (n start r : Nat), bids.length - 1 - start ≤ n →
      nbpiLoop bids p start = some r → start ≤ r := by
  intro n
  induction n with
  | zero =>
    intro start r hn h
    rw [nbpiLoop] at h
    rw [if_neg (by omega : ¬ start < bids.length - 1)] at h
    simp only [Option.some.injEq] at h
    omega
  | succ n ih =>
    intro start r hn h
    rw [nbpiLoop] at h
    by_cases hr : start < bids.length - 1
    · rw [if_pos hr] at h
      cases hg : bids.get? start with
      | none => rw [hg] at h; cases h
      | some b =>
        rw [hg] at h
        simp only [] at h
        split at h
        · have := ih (start + 1) r (by omega) h
          omega
        · simp only [Option.some.injEq] at h
          omega
    · rw [if_neg hr] at h
      simp only [Option.some.injEq] at h
      omega

/-- Claim C3: for every pair of non-empty sorted validated books whose
market intersects (highest bid price at least the lowest offer price) the
clearing price returned by `compute_clearing_price` lies between the
minimum validated offer price and the maximum validated bid price,
inclusive. Validated orders carry revealed prices, which are capped at
`MAX_BID_PRICE` / `MAX_OFFER_PRICE` by the reveal logic; the cap
hypotheses record that and keep the final price average below the U256
wrap. Runs on which the code panics return `none` and are the subject of
C1. -/
theorem clearing_price_bracket (bids : List Bid) (offers : List Offer) (o0 : Offer)
    (bLast : Bid) (cp ma : Nat)
    (hs_b : sortedBids bids) (hs_o : sortedOffers offers)
    (ho0 : offers.get? 0 = some o0) (hbL : bids.get? (bids.length - 1) = some bLast)
    (hint : o0.offer_price_revealed ≤ bLast.bid_price_revealed)
    (hbcap : ∀ b ∈ bids, b.bid_price_revealed ≤ MAX_BID_PRICE)
    (hocap : ∀ o ∈ offers, o.offer_price_revealed ≤ MAX_OFFER_PRICE)
    (hok : compute_clearing_price bids offers = some (cp, ma)) :
    o0.offer_price_revealed ≤ cp ∧ cp ≤ bLast.bid_price_revealed := by
  rw [compute_clearing_price] at hok
  split at hok
  · cases hok
  · rename_i lastOffer hlast
    split at hok
    · cases hok
    · rename_i hbne
      simp only [] at hok
      split at hok
      · cases hok
      · rename_i csb1 bi1 hinc
        set sA := phaseA bids offers
          { offer_index := 1, bid_index := bi1, cum_sum_offers := lastOffer.amount,
            cum_sum_bids := csb1 } (csb1 ⊓ lastOffer.amount) with hsA
        set nop := (match offers.get? sA.offer_index with
          | some o => o.offer_price_revealed
          | none => U256MAX) with hnop
        set pB := phaseB bids nop sA.cum_sum_offers sA.bid_index sA.cum_sum_bids with hpB
        split at hok
        · cases hok
        · rename_i hoi0
          split at hok
          · cases hok
          · rename_i oAtOi hoAtOi
            split at hok
            · cases hok
            · rename_i noi hnoi
              split at hok
              · cases hok
              · rename_i oN hoN
                split at hok
                · cases hok
                · rename_i nbpi hnbpi
                  split at hok
                  · cases hok
                  · rename_i bN hbN
                    -- index bounds from the successful reads
                    have holen : 0 < offers.length := by
                      cases Nat.lt_or_ge 0 offers.length with
                      | inl hl => exact hl
                      | inr hr =>
                        have : offers.length = 0 := by omega
                        rw [List.get?_eq_none.mpr (by omega)] at ho0
                        cases ho0
                    have hnoi_lt : noi < offers.length := by
                      cases Nat.lt_or_ge noi offers.length with
                      | inl hl => exact hl
                      | inr hr => rw [List.get?_eq_none.mpr hr] at hoN; cases hoN
                    have hnbpi_lt : nbpi < bids.length := by
                      cases Nat.lt_or_ge nbpi bids.length with
                      | inl hl => exact hl
                      | inr hr => rw [List.get?_eq_none.mpr hr] at hbN; cases hbN
                    have hlastget : offers.get? (offers.length - 1) = some lastOffer := by
                      rw [List.get?_eq_getElem?, ← List.getLast?_eq_getElem?]
                      exact hlast
                    -- initial increase walk post-condition
                    have hbi1 := increaseLoop_post bids lastOffer.offer_price_revealed
                      (bids.length - 1) (bids.length - 1) 0 csb1 bi1 (Nat.le_refl _) hinc
                    -- phase monotonicity
                    have hsAbi : bi1 ≤ sA.bid_index := by
                      have h := phaseA_bid_index_ge bids offers offers.length
                        { offer_index := 1, bid_index := bi1,
                          cum_sum_offers := lastOffer.amount, cum_sum_bids := csb1 }
                        (csb1 ⊓ lastOffer.amount) (by simp only []; omega)
                      rw [← hsA] at h
                      exact h
                    have hcases : sA.offer_index = 1 ∨ bi1 < bids.length := by
                      have h := phaseA_offer_index_cases bids offers
                        { offer_index := 1, bid_index := bi1,
                          cum_sum_offers := lastOffer.amount, cum_sum_bids := csb1 }
                        (csb1 ⊓ lastOffer.amount)
                      rw [← hsA] at h
                      simp only [] at h
                      exact h
                    have hpbge : sA.bid_index ≤ pB.2 := by
                      have h := phaseB_bi_ge bids nop sA.cum_sum_offers bids.length
                        sA.bid_index sA.cum_sum_bids (by omega)
                      rw [← hpB] at h
                      exact h
                    have hnoile : noi ≤ sA.offer_index - 1 :=
                      noiLoop_le offers oAtOi.offer_price_revealed (sA.offer_index - 1) noi hnoi
                    -- lower bound for the bid element entering the average
                    have hbNlow : o0.offer_price_revealed ≤ bN.bid_price_revealed := by
                      by_cases hbieq : pB.2 = bids.length
                      · rw [if_pos hbieq] at hnbpi
                        have h1 := nbpiLoop_ge bids
                          (match bids.get? pB.2 with
                            | some b => b.bid_price_revealed
                            | none => 0) bids.length (pB.2 - 1) nbpi (by omega) hnbpi
                        have heq : nbpi = bids.length - 1 := by omega
                        rw [heq, hbL] at hbN
                        cases hbN
                        exact hint
                      · rw [if_neg hbieq] at hnbpi
                        have h1 := nbpiLoop_ge bids
                          (match bids.get? pB.2 with
                            | some b => b.bid_price_revealed
                            | none => 0) bids.length pB.2 nbpi (by omega) hnbpi
                        have hbi1lt : bi1 < bids.length := by omega
                        obtain ⟨bb, hbb, hbbp⟩ := hbi1.2 (by omega)
                        have hoo : o0.offer_price_revealed ≤ lastOffer.offer_price_revealed :=
                          sortedOffers_mono offers hs_o 0 (offers.length - 1) (by omega)
                            o0 lastOffer ho0 hlastget
                        have hbbN : bb.bid_price_revealed ≤ bN.bid_price_revealed :=
                          sortedBids_mono bids hs_b bi1 nbpi (by omega) bb bN hbb hbN
                        omega
                    -- upper bound for the offer element entering the average
                    have hoNhigh : oN.offer_price_revealed ≤ bLast.bid_price_revealed := by
                      rcases hcases with hoi1 | hbi1lt
                      · have : noi = 0 := by omega
                        rw [this, ho0] at hoN
                        cases hoN
                        exact hint
                      · obtain ⟨bb, hbb, hbbp⟩ := hbi1.2 (by omega)
                        have ho1 : oN.offer_price_revealed ≤ lastOffer.offer_price_revealed :=
                          sortedOffers_mono offers hs_o noi (offers.length - 1) (by omega)
                            oN lastOffer hoN hlastget
                        have hb1 : bb.bid_price_revealed ≤ bLast.bid_price_revealed :=
                          sortedBids_mono bids hs_b bi1 (bids.length - 1) (by omega)
                            bb bLast hbb hbL
                        omega
                    -- the remaining two legs of the bracket
                    have hoNlow : o0.offer_price_revealed ≤ oN.offer_price_revealed :=
                      sortedOffers_mono offers hs_o 0 noi (Nat.zero_le _) o0 oN ho0 hoN
                    have hbNhigh : bN.bid_price_revealed ≤ bLast.bid_price_revealed :=
                      sortedBids_mono bids hs_b nbpi (bids.length - 1) (by omega) bN bLast hbN hbL
                    -- the wrapped sum does not wrap for capped (validated) prices
                    have hcapo : oN.offer_price_revealed ≤ MAX_OFFER_PRICE :=
                      hocap oN (List.get?_mem hoN)
                    have hcapb : bN.bid_price_revealed ≤ MAX_BID_PRICE :=
                      hbcap bN (List.get?_mem hbN)
                    have hnowrap : uadd oN.offer_price_revealed bN.bid_price_revealed =
                        oN.offer_price_revealed + bN.bid_price_revealed := by
                      unfold uadd U256MOD
                      rw [Nat.mod_eq_of_lt]
                      have : (2 : Nat) ^ 256 > 2000000 := by norm_num
                      unfold MAX_OFFER_PRICE at hcapo
                      unfold MAX_BID_PRICE at hcapb
                      omega
                    have hbound : o0.offer_price_revealed ≤
                        uadd oN.offer_price_revealed bN.bid_price_revealed / 2 ∧
                        uadd oN.offer_price_revealed bN.bid_price_revealed / 2 ≤
                          bLast.bid_price_revealed := by
                      rw [hnowrap]
                      omega
                    split at hok
                    · cases hok
                    · rename_i cso2 hcso
                      split at hok
                      · simp only [Option.some.injEq, Prod.mk.injEq] at hok
                        obtain ⟨rfl, rfl⟩ := hok
                        exact hbound
                      · split at hok
                        · split at hok
                          · cases hok
                          · simp only [Option.some.injEq, Prod.mk.injEq] at hok
                            obtain ⟨rfl, rfl⟩ := hok
                            exact hbound
                        · simp only [Option.some.injEq, Prod.mk.injEq] at hok
                          obtain ⟨rfl, rfl⟩ := hok
                          exact hbound

/-- Witness for C3 at a concrete input: the books `[10, 2000]` versus
`[1000, 1500]` clear at price 1500, which lies in `[1000, 2000]`. -/
theorem clearing_price_bracket_witness :
    wOffer1.offer_price_revealed ≤ 1500 ∧ 1500 ≤ wBidHi.bid_price_revealed :=
  clearing_price_bracket [wBidLo, wBidHi] [wOffer1, wOffer2] wOffer1 wBidHi 1500 100
    (by unfold sortedBids wBidLo wBidHi; decide)
    (by unfold sortedOffers wOffer1 wOffer2; decide)
    rfl rfl
    (by unfold wOffer1 wBidHi; decide)
    (by intro b hb; fin_cases hb <;> decide)
    (by intro o ho; fin_cases ho <;> decide)
    (by simp [compute_clearing_price, increase_cum_sum_bids, increaseLoop, increaseFinal,
      phaseA, offerGroupLoop, decrease_cum_sum_bids, phaseB, bidGroupLoop, noiLoop,
      nbpiLoop, csoUp, csoDown, uadd, usub, U256MOD, U256MAX,
      wBidLo, wBidHi, wOffer1, wOffer2])
